import Mathlib

/- Shallow embedding of the SFMC-to-AJO translation pipeline of this
   repository (src/replace_sfmc_to_ajo_v4.py and src/replace_sfmc_to_ajo_v3.py).

   Documents, patterns and table cells are lists of characters.  Every Python
   regular expression used by the source is embedded as a dedicated matcher
   whose behaviour on that particular pattern is reproduced explicitly,
   including the greedy/lazy backtracking order where it is observable.
   ASCII approximation: the regex classes \w and \s, str.lower and
   str.strip are modelled on their ASCII meaning, which is exact on the
   HTML/AMPScript documents the tool processes. -/

set_option linter.unusedVariables false
set_option linter.unnecessarySeqFocus false
set_option linter.unnecessarySimpa false

abbrev Str := List Char

def lowerC (c : Char) : Char := c.toLower

def lowerS (s : Str) : Str := s.map lowerC

/-- Python regex class \w (ASCII fragment): letters, digits, underscore. -/
def isWordC (c : Char) : Bool := c.isAlphanum || c == '_'

/-- Python regex class \s (ASCII fragment). -/
def isWsC (c : Char) : Bool :=
  c == ' ' || c == '\t' || c == '\n' || c == '\r' || c == '\x0b' || c == '\x0c'

/-- Python str.strip (ASCII whitespace). -/
def strip (s : Str) : Str := ((s.dropWhile isWsC).reverse.dropWhile isWsC).reverse

/-- Does the first list occur as a prefix of the second (Python startswith)? -/
def startsWithS : Str → Str → Bool
  | [], _ => true
  | _ :: _, [] => false
  | a :: as, b :: bs => a == b && startsWithS as bs

/-- Case-insensitive prefix test. -/
def startsWithCI (p s : Str) : Bool := startsWithS (lowerS p) (lowerS s)

/-- Substring containment (Python `in` on str, case sensitive). -/
def containsSub (n : Str) : Str → Bool
  | [] => startsWithS n []
  | c :: rest => startsWithS n (c :: rest) || containsSub n rest

/-- Case-insensitive substring containment (regex search for a literal with
    re.IGNORECASE). -/
def containsCI (n s : Str) : Bool := containsSub (lowerS n) (lowerS s)

/-- Leftmost-position regex search: try a matcher at each start position, left
    to right (Python re.search). -/
def searchPos {α : Type} (f : Str → Option α) : Str → Option α
  | [] => f []
  | c :: rest =>
    match f (c :: rest) with
    | some a => some a
    | none => searchPos f rest

/-- First success in a list of alternatives (backtracking preference order). -/
def firstSome {α β : Type} (f : α → Option β) : List α → Option β
  | [] => none
  | a :: rest =>
    match f a with
    | some b => some b
    | none => firstSome f rest

/-- n, n-1, ..., 0: the order in which a greedy quantifier hands back
    characters. -/
def descList (n : Nat) : List Nat := (List.range (n + 1)).map (fun i => n - i)

/-- Smallest index below the bound satisfying p: the order in which a lazy
    quantifier grows. -/
def firstIdx (p : Nat → Bool) (bound : Nat) : Option Nat := (List.range bound).find? p

/-- Python dict lookup (keys are compared as whole strings). -/
def lookupVE (ve : List (Str × Str)) (k : Str) : Option Str :=
  match ve with
  | [] => none
  | (a, b) :: rest => if a == k then some b else lookupVE rest k

/-- Python dict assignment d[k] = v. -/
def updVE (ve : List (Str × Str)) (k v : Str) : List (Str × Str) :=
  match ve with
  | [] => [(k, v)]
  | (a, b) :: rest => if a == k then (k, v) :: rest else (a, b) :: updVE rest k v

/-- Python set.add modelled on a duplicate-free list. -/
def setIns (cov : List Str) (x : Str) : List Str :=
  if cov.contains x then cov else cov ++ [x]

/-- Concatenation of a list of strings. -/
def concatAll : List Str → Str
  | [] => []
  | s :: rest => s ++ concatAll rest

/-- Number of newline characters (html_text.count of a newline). -/
def countNl (s : Str) : Nat := (s.filter (fun c => c == '\n')).length

/-- Python str.replace(pat, rep): all non-overlapping occurrences, left to
    right.  (The source only calls it with a non-empty pattern.)  The fuel
    argument of the worker only forces structural termination; the wrapper
    supplies more than the input length, which a match consuming at least
    one character per step can never exhaust. -/
def replaceAllSubGo (pat rep : Str) : Nat → Str → Str
  | 0, s => s
  | _ + 1, [] => []
  | fuel + 1, c :: rest =>
    if pat ≠ [] ∧ startsWithS pat (c :: rest) = true then
      rep ++ replaceAllSubGo pat rep fuel ((c :: rest).drop pat.length)
    else
      c :: replaceAllSubGo pat rep fuel rest

def replaceAllSub (pat rep s : Str) : Str := replaceAllSubGo pat rep (s.length + 1) s

/-- Occurrence as a contiguous substring, as a proposition. -/
def occursIn (a b : Str) : Prop := ∃ u v, b = u ++ a ++ v

-- ---------------------------------------------------------------------------
-- Elementary piece parsers used to transcribe the source's regexes.
-- Each returns the rest of the input after the consumed piece.
-- ---------------------------------------------------------------------------

/-- A literal, case sensitive. -/
def pStr (lit s : Str) : Option Str :=
  if startsWithS lit s then some (s.drop lit.length) else none

/-- A literal, case insensitive (re.IGNORECASE). -/
def pStrCI (lit s : Str) : Option Str :=
  if startsWithCI lit s then some (s.drop lit.length) else none

/-- Regex item \s* where the next item cannot match whitespace: maximal munch
    is exact. -/
def pWsStar (s : Str) : Str := s.dropWhile isWsC

/-- Regex item \s+ where the next item cannot match whitespace. -/
def pWsPlus (s : Str) : Option Str :=
  match s with
  | [] => none
  | c :: rest => if isWsC c then some (pWsStar rest) else none

/-- Regex item (\w+) where the next item cannot match a word character:
    returns the captured word and the rest. -/
def pWord (s : Str) : Option (Str × Str) :=
  let w := s.takeWhile isWordC
  if w.isEmpty then none else some (w, s.drop w.length)

/-- A single character satisfying a class. -/
def pCharIs (p : Char → Bool) (s : Str) : Option (Char × Str) :=
  match s with
  | [] => none
  | c :: rest => if p c then some (c, rest) else none

-- Elementary length facts about the piece parsers, used for termination and
-- progress of the document scanners.

-- ---------------------------------------------------------------------------
-- re.findall(r'@(\w+)', ...): every variable reference, left to right,
-- non-overlapping.  Used by both generations for inference and warnings.
-- ---------------------------------------------------------------------------

def findAtVarsGo : Nat → Str → List Str
  | 0, _ => []
  | _ + 1, [] => []
  | fuel + 1, c :: rest =>
    if c == '@' then
      let w := rest.takeWhile isWordC
      if w.isEmpty then findAtVarsGo fuel rest
      else w :: findAtVarsGo fuel (rest.drop w.length)
    else findAtVarsGo fuel rest

def findAtVars (s : Str) : List Str := findAtVarsGo (s.length + 1) s

-- ---------------------------------------------------------------------------
-- The condition regexes of translate_condition_to_liquid.  They are the same
-- five literals in both generations (v4 lines 173-177, v3 lines 112-116).
-- Every quantifier in them is followed by an item its class cannot match, so
-- maximal munch reproduces the greedy semantics exactly.
-- ---------------------------------------------------------------------------

def isQuoteC (c : Char) : Bool := c == '\x27' || c == '\x22'

/-- One-position matcher for re_not_empty, the regex
    not\s*empty\s*\(\s*@(\w+)\s*\) with re.IGNORECASE; yields group 1. -/
def matchNotEmptyAt (s : Str) : Option Str := do
  let s1 ← pStrCI ("not".data) s
  let s2 ← pStrCI ("empty".data) (pWsStar s1)
  let s3 ← pStr ("(".data) (pWsStar s2)
  let s4 ← pStr ("@".data) (pWsStar s3)
  let (w, s5) ← pWord s4
  let _ ← pStr (")".data) (pWsStar s5)
  pure w

/-- One-position matcher for re_empty, the regex
    empty\s*\(\s*@(\w+)\s*\) with re.IGNORECASE; yields group 1. -/
def matchEmptyAt (s : Str) : Option Str := do
  let s1 ← pStrCI ("empty".data) s
  let s2 ← pStr ("(".data) (pWsStar s1)
  let s3 ← pStr ("@".data) (pWsStar s2)
  let (w, s4) ← pWord s3
  let _ ← pStr (")".data) (pWsStar s4)
  pure w

/-- One-position matcher for re_contains, the regex
    contains\s*\(\s*@(\w+)\s*,\s*QUOTE([^QUOTES]+)QUOTE\s*\) with
    re.IGNORECASE, where either quote character may open or close the
    literal; yields groups 1 and 2. -/
def matchContainsAt (s : Str) : Option (Str × Str) := do
  let s1 ← pStrCI ("contains".data) s
  let s2 ← pStr ("(".data) (pWsStar s1)
  let s3 ← pStr ("@".data) (pWsStar s2)
  let (w, s4) ← pWord s3
  let s5 ← pStr (",".data) (pWsStar s4)
  let (_, s6) ← pCharIs isQuoteC (pWsStar s5)
  let v := s6.takeWhile (fun c => !(isQuoteC c))
  if v.isEmpty then none else do
  let (_, s7) ← pCharIs isQuoteC (s6.drop v.length)
  let _ ← pStr (")".data) (pWsStar s7)
  pure (w, v)

/-- One-position matcher for re_cmp, the regex
    @(\w+)\s*(==|!=)\s*QUOTE([^QUOTES]+)QUOTE with re.IGNORECASE;
    yields groups 1, 2 and 3. -/
def matchCmpAt (s : Str) : Option (Str × Str × Str) := do
  let s1 ← pStr ("@".data) s
  let (w, s2) ← pWord s1
  let s3 := pWsStar s2
  let (op, s4) ←
    match pStr ("==".data) s3 with
    | some r => some (("==".data), r)
    | none =>
      match pStr ("!=".data) s3 with
      | some r => some (("!=".data), r)
      | none => none
  let (_, s5) ← pCharIs isQuoteC (pWsStar s4)
  let v := s5.takeWhile (fun c => !(isQuoteC c))
  if v.isEmpty then none else do
  let (_, _) ← pCharIs isQuoteC (s5.drop v.length)
  pure (w, op, v)

/-- Matcher for re_truthy, the regex ^\s*@(\w+)\s*$ with re.IGNORECASE.  The
    pattern is anchored, so re.search only ever matches the whole condition;
    the trailing \s*$ holds exactly when everything after the variable is
    whitespace. -/
def matchTruthy (s : Str) : Option Str := do
  let s1 ← pStr ("@".data) (pWsStar s)
  let (w, s2) ← pWord s1
  if (s2.dropWhile isWsC).isEmpty then pure w else none

/-- resolve_expr, identical in both generations (v4 lines 144-149,
    v3 lines 88-93): the mapped Liquid expression, or the raw name when no
    mapping exists. -/
def resolve_expr (var_name : Str) (var_expr : List (Str × Str)) : Str :=
  (lookupVE var_expr (lowerS var_name)).getD var_name

/-- The learn_expr closure of translate_condition_to_liquid: resolve, and
    when the resolved expression differs from the raw name record the
    lowercase name as covered. -/
def learn_expr (v : Str) (ve : List (Str × Str)) (cov : List Str) : Str × List Str :=
  let e := resolve_expr v ve
  (e, if e == v then cov else setIns cov (lowerS v))

/-- The warning/covered accumulators that the Python code mutates in place,
    made explicit. -/
structure TCState where
  warnings : List Str
  covered : List Str
deriving DecidableEq

/-- The fixed allow-list of identity fields that never produce warnings. -/
def allowListed : List Str :=
  [("email".data), ("firstname".data), ("lastname".data), ("country".data)]

-- ---------------------------------------------------------------------------
-- Cell-content matchers of extract_var_expressions (identical regex literals
-- in both generations: v4 lines 99-101, v3 lines 52-54).
-- ---------------------------------------------------------------------------

/-- One-position matcher for let_re, the regex
    LB%\s*let\s+([A-Za-z_]\w*)\s*=\s*\(?\s*(.*?)\s*\)?\s*%RB with
    re.IGNORECASE and re.DOTALL (LB/RB denoting the brace delimiters).
    Only group 1 is used by the source.  After the equals sign every
    remaining item of the pattern can match the empty string except the
    closing %RB, so the pattern matches exactly when the tail contains
    that two-character sequence. -/
def matchLetAt (s : Str) : Option Str := do
  let s1 ← pStr ("\x7b%".data) s
  let s2 ← pStrCI ("let".data) (pWsStar s1)
  let s3 ← pWsPlus s2
  let (c0, s4) ← pCharIs (fun c => c.isAlpha || c == '_') s3
  let w := s4.takeWhile isWordC
  let s5 := s4.drop w.length
  let s6 ← pStr ("=".data) (pWsStar s5)
  if containsSub ("%\x7d".data) s6 then pure (c0 :: w) else none

/-- One-position matcher for print_re, the regex LBLB\s*(.*?)\s*RBRB with
    re.DOTALL: after the opening braces the greedy \s* takes the maximal
    whitespace run, then the lazy group grows minimally until \s*RBRB
    completes; yields group 1. -/
def matchPrintAt (s : Str) : Option Str := do
  let s1 ← pStr ("\x7b\x7b".data) s
  let u := pWsStar s1
  let k ← firstIdx (fun k => startsWithS ("\x7d\x7d".data) (pWsStar (u.drop k))) (u.length + 1)
  pure (u.take k)

/-- One-position body matcher for path_re, the regex
    \b(?:profile|context)\.[A-Za-z0-9_\.\[\]]+ with re.IGNORECASE (group 0,
    original spelling preserved).  The word-boundary test needs the previous
    character and is done by the caller. -/
def isPathTailC (c : Char) : Bool :=
  c.isAlphanum || c == '_' || c == '.' || c == '[' || c == ']'

def matchPathBodyAt (s : Str) : Option Str := do
  let kw ←
    match pStrCI ("profile.".data) s with
    | some r => some (8 : Nat)
    | none =>
      match pStrCI ("context.".data) s with
      | some r => some (8 : Nat)
      | none => none
  let u := s.drop kw
  let run := u.takeWhile isPathTailC
  if run.isEmpty then none else pure (s.take kw ++ run)

/-- Leftmost search for path_re, tracking the previous character for the \b
    boundary (the keyword starts with a word character, so the boundary holds
    exactly when the previous character is absent or not a word character). -/
def searchPathFrom (prev : Option Char) (s : Str) : Option Str :=
  match s with
  | [] => none
  | c :: rest =>
    match (if (match prev with | none => true | some p => !(isWordC p)) then
             matchPathBodyAt (c :: rest) else none) with
    | some r => some r
    | none => searchPathFrom (some c) rest

def searchPath (s : Str) : Option Str := searchPathFrom none s

/-- The Python truthiness test used on the extracted expression
    (`if expr and single_var`, `if expr`): None and the empty string are
    falsy. -/
def exprTruthy : Option Str → Bool
  | none => false
  | some e => !e.isEmpty

/-- The expression-extraction chain shared by both generations: let_re first,
    then print_re, then path_re.  Mirrors the if/elif chain, including that a
    successful print_re match with an empty group stops the chain. -/
def extractExprFromCell (ajo : Str) : Option Str :=
  match searchPos matchLetAt ajo with
  | some name => some (strip name)
  | none =>
    match searchPos matchPrintAt ajo with
    | some e => some (strip e)
    | none =>
      match searchPath ajo with
      | some p => some (strip p)
      | none => none

/-- The textual-evidence test of the elif branch:
    any(x in ajo for x in [profile-dot, context-dot, fragment, print-open,
    tag-open]), case sensitive. -/
def ajoHints (ajo : Str) : Bool :=
  containsSub ("profile.".data) ajo || containsSub ("context.".data) ajo ||
  containsSub ("fragment".data) ajo || containsSub ("\x7b\x7b".data) ajo ||
  containsSub ("\x7b%".data) ajo

-- ---------------------------------------------------------------------------
-- Generation v4 (src/replace_sfmc_to_ajo_v4.py)
-- ---------------------------------------------------------------------------

namespace V4

/-- One row step of extract_var_expressions (v4 lines 105-139).  The
    accumulator is the pair (var_expr, covered). -/
def processRow (acc : List (Str × Str) × List Str) (row : Str × Str) :
    List (Str × Str) × List Str :=
  let sfmc := row.1
  let ajo := row.2
  let vars := findAtVars sfmc
  if vars.isEmpty then acc
  else
    let single := ((vars.map lowerS).dedup.length == 1)
    let expr := extractExprFromCell ajo
    vars.foldl
      (fun acc2 v =>
        let vlow := lowerS v
        if vlow == ("the".data) then acc2
        else if exprTruthy expr && single then
          (updVE acc2.1 vlow (expr.getD []), setIns acc2.2 vlow)
        else if ajoHints ajo then (acc2.1, setIns acc2.2 vlow)
        else acc2)
      acc

/-- extract_var_expressions of v4 (lines 82-141): fold the row step over the
    mapping rows, starting from an empty mapping and an empty covered set. -/
def extract_var_expressions (rows : List (Str × Str)) :
    List (Str × Str) × List Str :=
  rows.foldl processRow ([], [])

/-- translate_condition_to_liquid of v4 (lines 155-219).  The five condition
    regexes are tried with re.search in the order of the source; the elseif
    rewrite recurses on the remainder; anything else becomes a diagnostic
    comment embedding the original condition. -/
def translateGo (fuel : Nat) (cond : Str) (st : TCState)
    (ve : List (Str × Str)) : Str × TCState :=
  let condL := strip cond
  let w2 := st.warnings ++ (findAtVars condL).filter
    (fun v => !(st.covered.contains (lowerS v)) && !(allowListed.contains (lowerS v)))
  match searchPos matchNotEmptyAt condL with
  | some v =>
    (("\x7b% if length(".data) ++ (learn_expr v ve st.covered).1 ++ (") > 0 %\x7d".data),
      ⟨w2, (learn_expr v ve st.covered).2⟩)
  | none =>
  match searchPos matchEmptyAt condL with
  | some v =>
    (("\x7b% if length(".data) ++ (learn_expr v ve st.covered).1 ++ (") == 0 %\x7d".data),
      ⟨w2, (learn_expr v ve st.covered).2⟩)
  | none =>
  match searchPos matchContainsAt condL with
  | some (v, val) =>
    (("\x7b% if contains(".data) ++ (learn_expr v ve st.covered).1 ++ (", \x27".data) ++ val ++
      ("\x27) %\x7d".data), ⟨w2, (learn_expr v ve st.covered).2⟩)
  | none =>
  match searchPos matchCmpAt condL with
  | some (v, op, val) =>
    (("\x7b% if ".data) ++ (learn_expr v ve st.covered).1 ++ (" ".data) ++ op ++ (" \x27".data) ++
      val ++ ("\x27 %\x7d".data), ⟨w2, (learn_expr v ve st.covered).2⟩)
  | none =>
  match matchTruthy condL with
  | some v =>
    (("\x7b% if ".data) ++ (learn_expr v ve st.covered).1 ++ (" %\x7d".data),
      ⟨w2, (learn_expr v ve st.covered).2⟩)
  | none =>
  if startsWithCI ("elseif ".data) condL = true then
    match fuel with
    | 0 => (("<!-- Untranslated condition: ".data) ++ cond ++ (" -->".data), ⟨w2, st.covered⟩)
    | fuel + 1 =>
      (replaceAllSub ("\x7b% if".data) ("\x7b% elseif".data)
        (translateGo fuel (strip (condL.drop 7)) ⟨w2, st.covered⟩ ve).1,
       (translateGo fuel (strip (condL.drop 7)) ⟨w2, st.covered⟩ ve).2)
  else
    (("<!-- Untranslated condition: ".data) ++ cond ++ (" -->".data), ⟨w2, st.covered⟩)

/-- translate_condition_to_liquid: the worker with enough fuel for the
    elseif recursion, whose depth is bounded by the condition length (each
    step removes at least the seven-character keyword). -/
def translate_condition_to_liquid (cond : Str) (st : TCState)
    (ve : List (Str × Str)) : Str × TCState :=
  translateGo (cond.length + 1) cond st ve

end V4

-- ---------------------------------------------------------------------------
-- Generation v3 (src/replace_sfmc_to_ajo_v3.py)
-- ---------------------------------------------------------------------------

namespace V3

/-- One row step of extract_var_expressions (v3 lines 56-84).  Unlike v4
    there is no reserved-word skip and no single-variable restriction: any
    extracted expression is assigned to every variable the source cell
    mentions. -/
def processRow (acc : List (Str × Str) × List Str) (row : Str × Str) :
    List (Str × Str) × List Str :=
  let sfmc := row.1
  let ajo := row.2
  let vars := findAtVars sfmc
  if vars.isEmpty then acc
  else
    let expr := extractExprFromCell ajo
    vars.foldl
      (fun acc2 v =>
        let vlow := lowerS v
        if exprTruthy expr then
          (updVE acc2.1 vlow (expr.getD []), setIns acc2.2 vlow)
        else if ajoHints ajo then (acc2.1, setIns acc2.2 vlow)
        else acc2)
      acc

/-- extract_var_expressions of v3 (lines 39-86). -/
def extract_var_expressions (rows : List (Str × Str)) :
    List (Str × Str) × List Str :=
  rows.foldl processRow ([], [])

/-- translate_condition_to_liquid of v3 (lines 98-159); the body is
    textually identical to the v4 generation's. -/
def translateGo (fuel : Nat) (cond : Str) (st : TCState)
    (ve : List (Str × Str)) : Str × TCState :=
  let condL := strip cond
  let w2 := st.warnings ++ (findAtVars condL).filter
    (fun v => !(st.covered.contains (lowerS v)) && !(allowListed.contains (lowerS v)))
  match searchPos matchNotEmptyAt condL with
  | some v =>
    (("\x7b% if length(".data) ++ (learn_expr v ve st.covered).1 ++ (") > 0 %\x7d".data),
      ⟨w2, (learn_expr v ve st.covered).2⟩)
  | none =>
  match searchPos matchEmptyAt condL with
  | some v =>
    (("\x7b% if length(".data) ++ (learn_expr v ve st.covered).1 ++ (") == 0 %\x7d".data),
      ⟨w2, (learn_expr v ve st.covered).2⟩)
  | none =>
  match searchPos matchContainsAt condL with
  | some (v, val) =>
    (("\x7b% if contains(".data) ++ (learn_expr v ve st.covered).1 ++ (", \x27".data) ++ val ++
      ("\x27) %\x7d".data), ⟨w2, (learn_expr v ve st.covered).2⟩)
  | none =>
  match searchPos matchCmpAt condL with
  | some (v, op, val) =>
    (("\x7b% if ".data) ++ (learn_expr v ve st.covered).1 ++ (" ".data) ++ op ++ (" \x27".data) ++
      val ++ ("\x27 %\x7d".data), ⟨w2, (learn_expr v ve st.covered).2⟩)
  | none =>
  match matchTruthy condL with
  | some v =>
    (("\x7b% if ".data) ++ (learn_expr v ve st.covered).1 ++ (" %\x7d".data),
      ⟨w2, (learn_expr v ve st.covered).2⟩)
  | none =>
  if startsWithCI ("elseif ".data) condL = true then
    match fuel with
    | 0 => (("<!-- Untranslated condition: ".data) ++ cond ++ (" -->".data), ⟨w2, st.covered⟩)
    | fuel + 1 =>
      (replaceAllSub ("\x7b% if".data) ("\x7b% elseif".data)
        (translateGo fuel (strip (condL.drop 7)) ⟨w2, st.covered⟩ ve).1,
       (translateGo fuel (strip (condL.drop 7)) ⟨w2, st.covered⟩ ve).2)
  else
    (("<!-- Untranslated condition: ".data) ++ cond ++ (" -->".data), ⟨w2, st.covered⟩)

/-- translate_condition_to_liquid: the worker with enough fuel for the
    elseif recursion, whose depth is bounded by the condition length (each
    step removes at least the seven-character keyword). -/
def translate_condition_to_liquid (cond : Str) (st : TCState)
    (ve : List (Str × Str)) : Str × TCState :=
  translateGo (cond.length + 1) cond st ve

end V3

-- ---------------------------------------------------------------------------
-- Print tokens and the v4 block converter.
-- ---------------------------------------------------------------------------

/-- One-position matcher for the print-token regex %%=v\(@(\w+)\)=%% with
    re.IGNORECASE (v4 lines 260-261 and 290, v3 lines 185-186 and 210):
    yields the matched text (group 0, original spelling), group 1 and the
    rest. -/
def matchPrintTokAt (s : Str) : Option (Str × Str × Str) :=
  match pStr ("%%=".data) s with
  | none => none
  | some s1 =>
    match pCharIs (fun c => lowerC c == 'v') s1 with
    | none => none
    | some (vc, s2) =>
      match pStr ("(@".data) s2 with
      | none => none
      | some s3 =>
        match pWord s3 with
        | none => none
        | some (w, s4) =>
          match pStr (")=%%".data) s4 with
          | none => none
          | some s5 =>
            some (("%%=".data) ++ vc :: ("(@".data) ++ w ++ (")=%%".data), w, s5)

/-- replace_all_prints of v4 (lines 278-290): global left-to-right sweep
    converting each print token whose resolved expression differs from the
    raw variable name into a Liquid print, and keeping the token text
    byte-for-byte otherwise.  The identical local closure _print_sub is used
    inside convert_ampscript_if_blocks on the then/else contents; v3 lines
    203-210 are the same function. -/
def replaceAllPrintsGo (var_expr : List (Str × Str)) : Nat → Str → Str
  | 0, s => s
  | _ + 1, [] => []
  | fuel + 1, c :: rest =>
    match matchPrintTokAt (c :: rest) with
    | some (tok, w, after) =>
      let expr := resolve_expr w var_expr
      (if expr == w then tok else ("\x7b\x7b ".data) ++ expr ++ (" \x7d\x7d".data))
        ++ replaceAllPrintsGo var_expr fuel after
    | none => c :: replaceAllPrintsGo var_expr fuel rest

def replace_all_prints (html_text : Str) (var_expr : List (Str × Str)) : Str :=
  replaceAllPrintsGo var_expr (html_text.length + 1) html_text

/-- One-position matcher for the ELSE/ENDIF delimiter sub-patterns
    %%\[\s*KW\s*\]%% of the IF-block regex (case-insensitive). -/
def matchHeaderAt (kw s : Str) : Option Str :=
  match pStr ("%%[".data) s with
  | none => none
  | some s1 =>
    match pStrCI kw (pWsStar s1) with
    | none => none
    | some s2 => pStr ("]%%".data) (pWsStar s2)

/-- The close of the IF opener after the lazy condition group:
    (?:\s+THEN)?\s*\]%%.  The optional arm is preferred; when the text after
    the condition begins with whitespace followed by THEN, the plain arm
    cannot also match, so the preference is deterministic. -/
def closeAfterCond (s : Str) : Option Str :=
  match
    (match pWsPlus s with
     | none => none
     | some s1 =>
       match pStrCI ("THEN".data) s1 with
       | none => none
       | some s2 => pStr ("]%%".data) (pWsStar s2)) with
  | some r => some r
  | none => pStr ("]%%".data) (pWsStar s)

/-- Candidates produced by the opener part of the IF-block regex
    %%\[\s*IF\s+(.+?)(?:\s+THEN)?\s*\]%% at one position, in the regex
    engine's backtracking order: the greedy \s+ from its maximal width down
    to one character, and for each width the lazy condition group from one
    character upwards.  Each candidate is (group 1, rest after the opener). -/
def ifOpenCandidates (s : Str) : List (Str × Str) :=
  match pStr ("%%[".data) s with
  | none => []
  | some t1 =>
    match pStrCI ("IF".data) (pWsStar t1) with
    | none => []
    | some t3 =>
      (descList ((t3.takeWhile isWsC).length)).flatMap (fun w =>
        if w == 0 then []
        else
          let u := t3.drop w
          (List.range u.length).filterMap (fun k =>
            (closeAfterCond (u.drop (k + 1))).map (fun rest => (u.take (k + 1), rest))))

/-- Search for the tail of the IF-block regex after the opener:
    (.*?)((?:%%\[\s*ELSE\s*\]%%(.*?))?)%%\[\s*ENDIF\s*\]%% in backtracking
    order.  The lazy then-content grows from empty; at each stop the optional
    ELSE arm is preferred with its own lazily growing content; the ELSE and
    ENDIF headers can never match at the same position, so a failed ELSE arm
    falls through to the next then-content width exactly as the engine does. -/
def bodySearch (rest : Str) : Option (Str × Str × Str) :=
  firstSome
    (fun t =>
      match matchHeaderAt ("ELSE".data) (rest.drop t) with
      | some v =>
        firstSome
          (fun e =>
            (matchHeaderAt ("ENDIF".data) (v.drop e)).map
              (fun fin => (rest.take t, v.take e, fin)))
          (List.range (v.length + 1))
      | none =>
        (matchHeaderAt ("ENDIF".data) (rest.drop t)).map
          (fun fin => (rest.take t, ([] : Str), fin)))
    (List.range (rest.length + 1))

/-- The captured groups of one IF-block match: group 1 (condition), group 2
    (then content), group 4 (else content, empty when the ELSE arm is
    absent, matching the source's `match.group(4) or ""`), and the document
    rest after the match. -/
structure IfMatch where
  cond : Str
  thenB : Str
  elseB : Str
  rest : Str
deriving DecidableEq

/-- The complete IF-block regex of convert_ampscript_if_blocks at one
    position (v4 lines 268-271, v3 lines 194-197, identical literals):
    %%\[\s*IF\s+(.+?)(?:\s+THEN)?\s*\]%%(.*?)((?:%%\[\s*ELSE\s*\]%%(.*?))?)%%\[\s*ENDIF\s*\]%%
    with re.IGNORECASE and re.DOTALL. -/
def matchIfBlockAt (s : Str) : Option IfMatch :=
  firstSome
    (fun (p : Str × Str) =>
      (bodySearch p.2).map (fun q => ⟨p.1, q.1, q.2.1, q.2.2⟩))
    (ifOpenCandidates s)

namespace V4

/-- The fixed replacement the v4 converter emits for the
    "the + PlanLegalName" grammar case (lines 245-249). -/
def thePlanConstruct : Str :=
  ("\x7b% if PlanLegalName startsWith \x27THE\x27 %\x7d\x7b\x7b PlanLegalName \x7d\x7d\x7b% else %\x7dthe \x7b\x7b PlanLegalName \x7d\x7d\x7b%/if%\x7d".data)

/-- The repl callback of convert_ampscript_if_blocks (v4 lines 235-266).
    When the then content contains both the article print token and the plan
    print token (re.search of the two literal tokens, case-insensitive,
    anywhere in the content), the emitted then part is the fixed construct
    and the matched then content itself is not emitted; the else content is
    then emitted raw.  Otherwise prints in both contents are substituted with
    the same closure as replace_all_prints, and a blank else branch is
    dropped. -/
def replIfBlock (m : IfMatch) (st : TCState) (ve : List (Str × Str)) :
    Str × TCState :=
  let cond_liquid := (translate_condition_to_liquid (strip m.cond) st ve).1
  let st2 := (translate_condition_to_liquid (strip m.cond) st ve).2
  if containsCI ("%%=v(@the)=%%".data) m.thenB &&
     containsCI ("%%=v(@planname)=%%".data) m.thenB then
    (cond_liquid ++ thePlanConstruct ++
      (if !(strip m.elseB).isEmpty then ("\x7b% else %\x7d".data) ++ m.elseB else []) ++
      ("\x7b%/if%\x7d".data), st2)
  else
    let thenB := replace_all_prints m.thenB ve
    let elseB := replace_all_prints m.elseB ve
    if !(strip elseB).isEmpty then
      (cond_liquid ++ thenB ++ ("\x7b% else %\x7d".data) ++ elseB ++
        ("\x7b%/if%\x7d".data), st2)
    else
      (cond_liquid ++ thenB ++ ("\x7b%/if%\x7d".data), st2)

/-- convert_ampscript_if_blocks of v4 (lines 225-272): pattern.sub over the
    document with the repl callback, replacing non-overlapping matches left
    to right and threading the warning/covered state through the calls in
    order. -/
def convertGo (ve : List (Str × Str)) : Nat → Str → TCState → Str × TCState
  | 0, s, st => (s, st)
  | _ + 1, [], st => ([], st)
  | fuel + 1, c :: rest, st =>
    match matchIfBlockAt (c :: rest) with
    | some m =>
      ((replIfBlock m st ve).1 ++ (convertGo ve fuel m.rest (replIfBlock m st ve).2).1,
       (convertGo ve fuel m.rest (replIfBlock m st ve).2).2)
    | none =>
      (c :: (convertGo ve fuel rest st).1, (convertGo ve fuel rest st).2)

def convert_ampscript_if_blocks (html_text : Str) (st : TCState)
    (ve : List (Str × Str)) : Str × TCState :=
  convertGo ve (html_text.length + 1) html_text st

end V4

-- ---------------------------------------------------------------------------
-- build_flex_regex and the table-driven literal substitution loop
-- (v4 lines 57-66 and 507-525; v3 lines 26-34 and 331-343).
-- ---------------------------------------------------------------------------

/-- One compiled item of a de-para pattern: a literal character (matched
    case-insensitively) or a \s* produced from one whitespace character of
    the snippet. -/
inductive FlexItem where
  | ch (c : Char)
  | ws
deriving DecidableEq

/-- build_flex_regex: re.escape the trimmed snippet, then rewrite every
    escaped whitespace character into \s*.  On Python 3.7+ re.escape leaves
    the equals sign unescaped, so the subsequent rewrite of an escaped
    equals sign never fires; each whitespace character of the class
    [ \t\r\n\f] becomes its own \s* (adjacent ones are equivalent to a
    single \s*), a vertical tab stays a literal, and every other character
    is a case-insensitive literal. -/
def build_flex_regex (sfmc_snippet : Str) : List FlexItem :=
  (strip sfmc_snippet).map (fun c =>
    if c == ' ' || c == '\t' || c == '\r' || c == '\n' || c == '\x0c' then FlexItem.ws
    else FlexItem.ch c)

/-- Matching a compiled de-para pattern at one position, returning the
    number of characters consumed.  Each \s* is greedy with backtracking
    (widest whitespace run first), exactly as the engine treats consecutive
    \s* items. -/
def matchFlex : List FlexItem → Str → Option Nat
  | [], _ => some 0
  | FlexItem.ch c :: items, s =>
    match s with
    | [] => none
    | d :: rest => if lowerC d == lowerC c then (matchFlex items rest).map (· + 1) else none
  | FlexItem.ws :: items, s =>
    firstSome (fun k => (matchFlex items (s.drop k)).map (· + k))
      (descList ((s.takeWhile isWsC).length))

/-- One combined sweep of pattern.finditer / pattern.subn: the output with
    every non-overlapping leftmost match replaced by rep, together with the
    number of matches.  An empty match advances by one character, as the re
    module does. -/
def flexScanGo (items : List FlexItem) (rep : Str) : Nat → Str → Str × Nat
  | 0, s => (s, 0)
  | _ + 1, [] =>
    (match matchFlex items [] with
     | some _ => (rep, 1)
     | none => ([], 0))
  | fuel + 1, c :: rest =>
    match matchFlex items (c :: rest) with
    | some n =>
      if n = 0 then
        let r := flexScanGo items rep fuel rest
        (rep ++ c :: r.1, r.2 + 1)
      else
        let r := flexScanGo items rep fuel ((c :: rest).drop n)
        (rep ++ r.1, r.2 + 1)
    | none =>
      let r := flexScanGo items rep fuel rest
      (c :: r.1, r.2)

def flexScan (items : List FlexItem) (rep : Str) (s : Str) : Str × Nat :=
  flexScanGo items rep (s.length + 1) s

/-- The running totals of the literal substitution loop. -/
structure SubState where
  work : Str
  found : Nat
  replaced : Nat
deriving DecidableEq

/-- One iteration of the module-level de-para loop of v4 (lines 513-525;
    v3 lines 331-343 is identical): skip blank sources, count the matches of
    the whitespace-tolerant pattern, and substitute only when the trimmed
    target is non-empty. -/
def literalRowStep (st : SubState) (row : Str × Str) : SubState :=
  let sfmc := strip row.1
  let ajo := strip row.2
  if sfmc.isEmpty then st
  else
    let items := build_flex_regex sfmc
    let n := (flexScan items [] st.work).2
    if n == 0 then st
    else if !ajo.isEmpty then
      let r := flexScan items ajo st.work
      { work := r.1, found := st.found + n, replaced := st.replaced + r.2 }
    else
      { st with found := st.found + n }

/-- The whole literal pass: rows sorted by trimmed source length, longest
    first (Python sorted with reverse=True is stable), folded over the
    document. -/
def literalPass (rows : List (Str × Str)) (doc : Str) : SubState :=
  (rows.mergeSort (fun a b => (strip b.1).length ≤ (strip a.1).length)).foldl
    literalRowStep ⟨doc, 0, 0⟩

-- ---------------------------------------------------------------------------
-- comment_ampscript_with_hoist: tokens, fragments and line numbers
-- (v4 lines 296-389; v3 lines 215-266).
-- ---------------------------------------------------------------------------

/-- The captured groups of one Phase-1 attribute match of v4 (line 316):
    group 1 (whitespace character, attribute name, optional spaces, equals
    sign, optional spaces), group 2 (the quote) and group 3 (the token). -/
structure AttrMatch where
  pre : Str
  q : Char
  tok : Str
deriving DecidableEq

def attrMatchLen (m : AttrMatch) : Nat := m.pre.length + m.tok.length + 2

def isAttrNameC (c : Char) : Bool := isWordC c || c == ':' || c == '-'

/-- One-position matcher for the Phase-1 attribute regex
    (\s[\w:-]+\s*=\s*)(["'])(%%=.*?=%%)\2 with re.DOTALL (v4 line 316).
    The runs are maximal-munch exact; the lazy token body grows minimally
    until an =%% immediately followed by the opening quote (the
    backreference). -/
def matchAttrAt (s : Str) : Option AttrMatch :=
  match s with
  | [] => none
  | c0 :: t0 =>
    if !(isWsC c0) then none
    else
      let name := t0.takeWhile isAttrNameC
      if name.isEmpty then none
      else
        let t1 := t0.drop name.length
        let ws1 := t1.takeWhile isWsC
        match pStr ("=".data) (t1.drop ws1.length) with
        | none => none
        | some t3 =>
          let ws2 := t3.takeWhile isWsC
          match pCharIs isQuoteC (t3.drop ws2.length) with
          | none => none
          | some (q, t5) =>
            match pStr ("%%=".data) t5 with
            | none => none
            | some t6 =>
              match firstIdx
                  (fun k => startsWithS (("=%%".data) ++ [q]) (t6.drop k))
                  (t6.length + 1) with
              | none => none
              | some k =>
                some ⟨c0 :: name ++ ws1 ++ '=' :: ws2, q,
                      ("%%=".data) ++ t6.take k ++ ("=%%".data)⟩

/-- Phase-1 scan: finditer over the document, left to right, continuing
    after each match.  Records the absolute start position of each match. -/
def phase1ScanGo (doc : Str) : Nat → Nat → List (Nat × AttrMatch)
  | 0, _ => []
  | fuel + 1, pos =>
    if doc.length ≤ pos then []
    else
      match matchAttrAt (doc.drop pos) with
      | some m => (pos, m) :: phase1ScanGo doc fuel (pos + attrMatchLen m)
      | none => phase1ScanGo doc fuel (pos + 1)

def phase1Scan (doc : Str) (pos : Nat) : List (Nat × AttrMatch) :=
  phase1ScanGo doc (doc.length + 1) pos

/-- The Phase-1 rewrite of one match: the attribute prefix, an emptied
    quoted value, and the token inside an adjacent HTML comment
    (v4 line 329). -/
def attrRewrite (m : AttrMatch) : Str :=
  m.pre ++ m.q :: m.q :: (" <!-- ".data) ++ m.tok ++ (" -->".data)

/-- The Phase-1 parts assembly of v4 (lines 322-333): the gaps between
    matches interleaved with the rewrites. -/
def renderP1 (doc : Str) (last : Nat) : List (Nat × AttrMatch) → Str
  | [] => doc.drop last
  | (p, m) :: ms =>
    (doc.drop last).take (p - last) ++ attrRewrite m ++
      renderP1 doc (p + attrMatchLen m) ms

-- Python str.splitlines and the offset table of Phase 2 (v4 lines 343-352,
-- v3 lines 229-239).

/-- Python str.splitlines restricted to the ASCII boundaries
    (\n, \r, \r\n, \v, \f). -/
def splitLinesGo (acc : Str) : Str → List Str
  | [] => if acc.isEmpty then [] else [acc]
  | '\r' :: '\n' :: rest => acc :: splitLinesGo [] rest
  | c :: rest =>
    if c == '\n' || c == '\r' || c == '\x0b' || c == '\x0c' then
      acc :: splitLinesGo [] rest
    else splitLinesGo (acc ++ [c]) rest

def splitLines (s : Str) : List Str := splitLinesGo [] s

/-- The cumulative offsets list: offsets[0] = 0 and each line contributes
    its length plus one. -/
def lineOffsetsGo (cur : Nat) : List Str → List Nat
  | [] => []
  | l :: rest => (cur + l.length + 1) :: lineOffsetsGo (cur + l.length + 1) rest

def lineOffsets (lines : List Str) : List Nat := 0 :: lineOffsetsGo 0 lines

/-- find_line of v4 (lines 348-352): the first offset index strictly above
    the position, clamped below by one, defaulting to the line count. -/
def findLineGo (pos i : Nat) : List Nat → Option Nat
  | [] => none
  | e :: rest => if pos < e then some (max 1 i) else findLineGo pos (i + 1) rest

def find_line (doc : Str) (pos : Nat) : Nat :=
  let lines := splitLines doc
  (findLineGo pos 0 (lineOffsets lines)).getD lines.length

/-- One-position matcher for the Phase-2 residual regex (v4 lines 336-339,
    v3 lines 221-224), whose three alternatives are tried in order:
    %%=.+?=%% (lazy, at least one body character), %%\[[\s\S]*?\]%% (lazy),
    and the server-side script block.  Returns the matched fragment. -/
def matchResidualAt (s : Str) : Option Str :=
  match
    (match pStr ("%%=".data) s with
     | none => none
     | some t =>
       (firstIdx (fun j => startsWithS ("=%%".data) (t.drop (j + 1))) t.length).map
         (fun j => s.take (3 + (j + 1) + 3))) with
  | some frag => some frag
  | none =>
  match
    (match pStr ("%%[".data) s with
     | none => none
     | some t =>
       (firstIdx (fun j => startsWithS ("]%%".data) (t.drop j)) (t.length + 1)).map
         (fun j => s.take (3 + j + 3))) with
  | some frag => some frag
  | none =>
    match pStrCI ("<script".data) s with
    | none => none
    | some t =>
      let run := t.takeWhile (fun c => !(c == '>'))
      if !(startsWithS (">".data) (t.drop run.length)) then none
      else if !((descList run.length).any (fun i =>
          !(isWordC ((run.take i).getLast?.getD 't')) &&
          (match pStrCI ("runat".data) (run.drop i) with
           | none => false
           | some v1 =>
             match v1 with
             | '=' :: q1 :: v2 =>
               isQuoteC q1 &&
               (match pStrCI ("server".data) v2 with
                | none => false
                | some v3 =>
                  match v3 with
                  | q2 :: _ => isQuoteC q2
                  | [] => false)
             | _ => false))) then none
      else
        let bodyStart := run.length + 1
        (firstIdx
            (fun j => startsWithCI ("</script>".data) ((t.drop bodyStart).drop j))
            ((t.drop bodyStart).length + 1)).map
          (fun j => s.take (7 + bodyStart + j + 9))

/-- Phase-2 scan: block_re.finditer over the Phase-1 output, left to right,
    recording the absolute start position of each residual fragment. -/
def residualScanGo (doc : Str) : Nat → Nat → List (Nat × Str)
  | 0, _ => []
  | fuel + 1, pos =>
    if doc.length ≤ pos then []
    else
      match matchResidualAt (doc.drop pos) with
      | some frag => (pos, frag) :: residualScanGo doc fuel (pos + frag.length)
      | none => residualScanGo doc fuel (pos + 1)

def residualScan (doc : Str) (pos : Nat) : List (Nat × Str) :=
  residualScanGo doc (doc.length + 1) pos

/-- One-position matcher for let_re (v4 line 340, v3 line 225):
    LB%\s*let\s+[^%]+%RB with re.IGNORECASE and re.DOTALL, LB/RB denoting
    the braces.  The non-percent run always extends to the first percent
    sign whatever the \s+ consumes, so the pattern matches exactly when at
    least one whitespace character follows the keyword, at least two
    characters precede the percent, and the percent is followed by the
    closing brace.  Returns the matched text and its length. -/
def matchLetTokAt (s : Str) : Option (Str × Nat) :=
  match pStr ("\x7b%".data) s with
  | none => none
  | some t1 =>
    let ws0 := t1.takeWhile isWsC
    match pStrCI ("let".data) (t1.drop ws0.length) with
    | none => none
    | some tail =>
      let r := tail.takeWhile (fun c => !(c == '%'))
      if 1 ≤ (tail.takeWhile isWsC).length && 2 ≤ r.length &&
         startsWithS ("%\x7d".data) (tail.drop r.length) then
        let n := 2 + ws0.length + 3 + r.length + 2
        some (s.take n, n)
      else none

/-- let_re.findall over a fragment: every non-overlapping match, in order. -/
def letScanGo : Nat → Str → List Str
  | 0, _ => []
  | _ + 1, [] => []
  | fuel + 1, c :: rest =>
    match matchLetTokAt (c :: rest) with
    | some (txt, n) => txt :: letScanGo fuel ((c :: rest).drop n)
    | none => letScanGo fuel rest

def letScan (s : Str) : List Str := letScanGo (s.length + 1) s

/-- let_re.sub of the empty string over a fragment: the fragment with every
    match removed (scanning the original text, as re.sub does). -/
def removeLetsGo : Nat → Str → Str
  | 0, s => s
  | _ + 1, [] => []
  | fuel + 1, c :: rest =>
    match matchLetTokAt (c :: rest) with
    | some (txt, n) => removeLetsGo fuel ((c :: rest).drop n)
    | none => c :: removeLetsGo fuel rest

def removeLets (s : Str) : Str := removeLetsGo (s.length + 1) s

/-- The gap/emission assembly of the Phase-2 loop, parameterised by the
    per-fragment emission (the two generations differ only there). -/
def renderP2 (chunk : Str → Str) (doc : Str) (last : Nat) : List (Nat × Str) → Str
  | [] => doc.drop last
  | (p, f) :: ms =>
    (doc.drop last).take (p - last) ++ chunk f ++ renderP2 chunk doc (p + f.length) ms

namespace V4

/-- The Phase-2 per-fragment emission of v4 (lines 356-387): a print token
    is commented as is; a block or server-script fragment has its binding
    declarations hoisted out in order and the remainder commented only when
    it is not blank; the final branch mirrors the source's unreachable
    fallback. -/
def p2chunk (full : Str) : Str :=
  if startsWithS ("%%=".data) full then
    ("<!-- ".data) ++ full ++ (" -->".data)
  else if startsWithS ("%%[".data) (lowerS full) ||
          startsWithS ("<script".data) (lowerS full) then
    concatAll (letScan full) ++
      (if !(strip (removeLets full)).isEmpty then
        ("<!-- ".data) ++ removeLets full ++ (" -->".data)
      else [])
  else ("<!-- ".data) ++ full ++ (" -->".data)

/-- The Phase-2 log record of one fragment of v4: the print-token branch
    records the token itself, the block/script branch records the trimmed
    remainder when it is not blank, the fallback records the fragment. -/
def p2record (full : Str) : Option Str :=
  if startsWithS ("%%=".data) full then some full
  else if startsWithS ("%%[".data) (lowerS full) ||
          startsWithS ("<script".data) (lowerS full) then
    (if !(strip (removeLets full)).isEmpty then some (strip (removeLets full)) else none)
  else some full

/-- comment_ampscript_with_hoist of v4 (lines 296-389): Phase 1 neutralizes
    whole-token attribute values, recording each at the line (computed by
    newline count on the pre-pass text) of the match start; Phase 2 scans
    the Phase-1 output for residual fragments, hoists bindings and comments
    the rest, recording lines through the offsets table of the Phase-1
    output. -/
def comment_ampscript_with_hoist (html_text : Str) : Str × List (Nat × Str) :=
  let ms := phase1Scan html_text 0
  let doc1 := renderP1 html_text 0 ms
  let c1 := ms.map (fun pm => (countNl (html_text.take pm.1) + 1, pm.2.tok))
  let bs := residualScan doc1 0
  let out := renderP2 p2chunk doc1 0 bs
  let c2 := bs.filterMap (fun pf => (p2record pf.2).map (fun sn => (find_line doc1 pf.1, sn)))
  (out, c1 ++ c2)

end V4

namespace V3

/-- The per-fragment emission of v3 (lines 244-263): every fragment kind,
    including bare print tokens, has its binding declarations hoisted and
    the remainder commented when not blank. -/
def p2chunk (full : Str) : Str :=
  concatAll (letScan full) ++
    (if !(strip (removeLets full)).isEmpty then
      ("<!-- ".data) ++ removeLets full ++ (" -->".data)
    else [])

/-- The log record of one v3 fragment: the trimmed remainder when not
    blank. -/
def p2record (full : Str) : Option Str :=
  if !(strip (removeLets full)).isEmpty then some (strip (removeLets full)) else none

/-- comment_ampscript_with_hoist of v3 (lines 215-266): a single sweep with
    hoisting, no attribute phase. -/
def comment_ampscript_with_hoist (html_text : Str) : Str × List (Nat × Str) :=
  let bs := residualScan html_text 0
  let out := renderP2 p2chunk html_text 0 bs
  let c2 := bs.filterMap (fun pf => (p2record pf.2).map (fun sn => (find_line html_text pf.1, sn)))
  (out, c2)

end V3

-- ---------------------------------------------------------------------------
-- Derived notions used by the statements below.
-- ---------------------------------------------------------------------------

/-- The single-variable print token of the source dialect spelled with a
    lowercase v, as the spec writes it. -/
def printTok (v : Str) : Str := ("%%=v(@".data) ++ v ++ (")=%%".data)

/-- Whether an ENDIF delimiter %%\[\s*ENDIF\s*\]%% matches anywhere in the
    document. -/
def containsEndif (s : Str) : Bool :=
  (List.range (s.length + 1)).any (fun k => (matchHeaderAt ("ENDIF".data) (s.drop k)).isSome)

-- ===========================================================================
-- ---------------------------------------------------------------------------
-- Length, progress and shape lemmas for the matchers and scanners above.
-- ---------------------------------------------------------------------------

theorem startsWithS_length {p s : Str} (h : startsWithS p s = true) :
    p.length ≤ s.length := by
  induction p generalizing s with
  | nil => simp
  | cons a as ih =>
    cases s with
    | nil => simp [startsWithS] at h
    | cons b bs =>
      simp only [startsWithS, Bool.and_eq_true] at h
      simpa using ih h.2

theorem length_dropWhile_le (p : Char → Bool) (l : Str) :
    (l.dropWhile p).length ≤ l.length := by
  induction l with
  | nil => simp
  | cons c rest ih =>
    by_cases h : p c <;> simp [List.dropWhile, h] <;> omega

theorem strip_length_le (s : Str) : (strip s).length ≤ s.length := by
  unfold strip
  have h1 := length_dropWhile_le isWsC s
  have h2 := length_dropWhile_le isWsC (s.dropWhile isWsC).reverse
  simp only [List.length_reverse] at *
  omega

theorem pStr_length {lit s r : Str} (h : pStr lit s = some r) :
    r.length ≤ s.length := by
  unfold pStr at h
  split at h
  · cases h; simp [List.length_drop]
  · cases h

theorem pStrCI_length {lit s r : Str} (h : pStrCI lit s = some r) :
    r.length ≤ s.length := by
  unfold pStrCI at h
  split at h
  · cases h; simp [List.length_drop]
  · cases h

theorem pWsStar_length (s : Str) : (pWsStar s).length ≤ s.length :=
  length_dropWhile_le isWsC s

theorem pWsPlus_length {s r : Str} (h : pWsPlus s = some r) :
    r.length < s.length := by
  unfold pWsPlus at h
  cases s with
  | nil => cases h
  | cons c rest =>
    by_cases hc : isWsC c = true
    · simp only [hc, if_true, Option.some.injEq] at h
      subst h
      have := pWsStar_length rest
      simp only [List.length_cons]
      omega
    · simp only [hc] at h
      simp at h

theorem pWord_length {s : Str} {w r : Str} (h : pWord s = some (w, r)) :
    r.length ≤ s.length := by
  simp only [pWord] at h
  split at h
  · cases h
  · simp only [Option.some.injEq, Prod.mk.injEq] at h
    rcases h with ⟨_, h2⟩
    subst h2
    simp [List.length_drop]

theorem matchPrintTokAt_length {s : Str} {tok w after : Str}
    (h : matchPrintTokAt s = some (tok, w, after)) : after.length < s.length := by
  unfold matchPrintTokAt at h
  cases h1 : pStr ("%%=".data) s with
  | none => simp only [h1] at h; cases h
  | some s1 =>
    simp only [h1] at h
    cases h2 : pCharIs (fun c => lowerC c == 'v') s1 with
    | none => simp only [h2] at h; cases h
    | some p2 =>
      simp only [h2] at h
      obtain ⟨vc, s2⟩ := p2
      cases h3 : pStr ("(@".data) s2 with
      | none => simp only [h3] at h; cases h
      | some s3 =>
        simp only [h3] at h
        cases h4 : pWord s3 with
        | none => simp only [h4] at h; cases h
        | some p4 =>
          simp only [h4] at h
          obtain ⟨w2, s4⟩ := p4
          cases h5 : pStr (")=%%".data) s4 with
          | none => simp only [h5] at h; cases h
          | some s5 =>
            simp only [h5, Option.some.injEq, Prod.mk.injEq] at h
            obtain ⟨-, -, hafter⟩ := h
            subst hafter
            have l1 := pStr_length h1
            have l2 : s2.length < s1.length := by
              unfold pCharIs at h2
              cases s1 with
              | nil => cases h2
              | cons a as =>
                by_cases ha : lowerC a == 'v'
                · simp only [ha, if_true, Option.some.injEq] at h2
                  cases h2
                  simp
                · simp [ha] at h2
            have l3 := pStr_length h3
            have l4 := pWord_length h4
            have l5 := pStr_length h5
            -- "%%=" is non-empty, so s1 is strictly shorter than s
            have l0 : s.length ≠ 0 := by
              intro hz
              have hnil := List.eq_nil_of_length_eq_zero hz
              subst hnil
              simp [pStr, startsWithS] at h1
            omega

theorem matchHeaderAt_length {kw s r : Str} (h : matchHeaderAt kw s = some r) :
    r.length ≤ s.length := by
  unfold matchHeaderAt at h
  cases h1 : pStr ("%%[".data) s with
  | none => simp only [h1] at h; cases h
  | some s1 =>
    simp only [h1] at h
    cases h2 : pStrCI kw (pWsStar s1) with
    | none => simp only [h2] at h; cases h
    | some s2 =>
      simp only [h2] at h
      have l1 := pStr_length h1
      have l2 := pWsStar_length s1
      have l3 := pStrCI_length h2
      have l4 := pWsStar_length s2
      have l5 := pStr_length h
      omega

theorem closeAfterCond_length {s r : Str} (h : closeAfterCond s = some r) :
    r.length ≤ s.length := by
  unfold closeAfterCond at h
  cases h0 : (match pWsPlus s with
     | none => none
     | some s1 =>
       match pStrCI ("THEN".data) s1 with
       | none => none
       | some s2 => pStr ("]%%".data) (pWsStar s2)) with
  | some r2 =>
    rw [h0] at h
    cases h
    cases h1 : pWsPlus s with
    | none => simp only [h1] at h0; cases h0
    | some s1 =>
      simp only [h1] at h0
      cases h2 : pStrCI ("THEN".data) s1 with
      | none => simp only [h2] at h0; cases h0
      | some s2 =>
        simp only [h2] at h0
        have l1 := pWsPlus_length h1
        have l2 := pStrCI_length h2
        have l3 := pWsStar_length s2
        have l4 := pStr_length h0
        omega
  | none =>
    rw [h0] at h
    have l1 := pWsStar_length s
    have l2 := pStr_length h
    omega

theorem ifOpenCandidates_length {s : Str} {cond rest : Str}
    (h : (cond, rest) ∈ ifOpenCandidates s) : rest.length < s.length := by
  unfold ifOpenCandidates at h
  cases h1 : pStr ("%%[".data) s with
  | none => simp only [h1] at h; cases h
  | some t1 =>
    simp only [h1] at h
    cases h2 : pStrCI ("IF".data) (pWsStar t1) with
    | none => simp only [h2] at h; cases h
    | some t3 =>
      simp only [h2] at h
      rw [List.mem_flatMap] at h
      obtain ⟨w, hw, hmem⟩ := h
      by_cases hw0 : w == 0
      · simp [hw0] at hmem
      · simp only [hw0, Bool.false_eq_true, if_false] at hmem
        rw [List.mem_filterMap] at hmem
        obtain ⟨k, hk, hck⟩ := hmem
        cases hc : closeAfterCond ((t3.drop w).drop (k + 1)) with
        | none => rw [hc] at hck; cases hck
        | some r2 =>
          rw [hc] at hck
          simp at hck
          obtain ⟨-, hrest⟩ := hck
          subst hrest
          have l0 : s.length ≠ 0 := by
            intro hz
            have hnil := List.eq_nil_of_length_eq_zero hz
            subst hnil
            simp [pStr, startsWithS] at h1
          have l1 := pStr_length h1
          have l2 := pWsStar_length t1
          have l3 := pStrCI_length h2
          have l4 := closeAfterCond_length hc
          have l5 : ((t3.drop w).drop (k + 1)).length = t3.length - w - (k + 1) := by
            simp [List.length_drop]
            omega
          omega

theorem firstSome_eq_some {α β : Type} {f : α → Option β} {l : List α} {b : β}
    (h : firstSome f l = some b) : ∃ a ∈ l, f a = some b := by
  induction l with
  | nil => cases h
  | cons a rest ih =>
    unfold firstSome at h
    cases hfa : f a with
    | some b2 =>
      rw [hfa] at h
      cases h
      exact ⟨a, by simp, hfa⟩
    | none =>
      rw [hfa] at h
      obtain ⟨a2, ha2, hfa2⟩ := ih h
      exact ⟨a2, by simp [ha2], hfa2⟩

theorem bodySearch_length {rest : Str} {tb eb fin : Str}
    (h : bodySearch rest = some (tb, eb, fin)) : fin.length ≤ rest.length := by
  unfold bodySearch at h
  obtain ⟨t, ht, hft⟩ := firstSome_eq_some h
  dsimp only at hft
  cases hElse : matchHeaderAt ("ELSE".data) (rest.drop t) with
  | some v =>
    simp only [hElse] at hft
    obtain ⟨e, he, hfe⟩ := firstSome_eq_some hft
    cases hEnd : matchHeaderAt ("ENDIF".data) (v.drop e) with
    | none => rw [hEnd] at hfe; cases hfe
    | some fin2 =>
      rw [hEnd] at hfe
      simp at hfe
      obtain ⟨-, -, hfin⟩ := hfe
      subst hfin
      have l1 := matchHeaderAt_length hEnd
      have l2 := matchHeaderAt_length hElse
      have l3 : (v.drop e).length = v.length - e := by simp [List.length_drop]
      have l4 : (rest.drop t).length = rest.length - t := by simp [List.length_drop]
      omega
  | none =>
    simp only [hElse] at hft
    cases hEnd : matchHeaderAt ("ENDIF".data) (rest.drop t) with
    | none => rw [hEnd] at hft; cases hft
    | some fin2 =>
      rw [hEnd] at hft
      simp at hft
      obtain ⟨-, -, hfin⟩ := hft
      subst hfin
      have l1 := matchHeaderAt_length hEnd
      have l2 : (rest.drop t).length = rest.length - t := by simp [List.length_drop]
      omega

theorem matchIfBlockAt_length {s : Str} {m : IfMatch}
    (h : matchIfBlockAt s = some m) : m.rest.length < s.length := by
  unfold matchIfBlockAt at h
  obtain ⟨p, hp, hfp⟩ := firstSome_eq_some h
  obtain ⟨cond, rest⟩ := p
  dsimp only at hfp
  cases hb : bodySearch rest with
  | none => rw [hb] at hfp; cases hfp
  | some q =>
    rw [hb] at hfp
    obtain ⟨tb, eb, fin⟩ := q
    simp at hfp
    have l1 := bodySearch_length hb
    have l2 := ifOpenCandidates_length hp
    subst hfp
    simp only at l1 ⊢
    omega

theorem matchResidualAt_pos {s frag : Str} (hs : 0 < s.length)
    (h : matchResidualAt s = some frag) : 0 < frag.length := by
  have hgen : ∀ n : Nat, 0 < n → 0 < (s.take n).length := by
    intro n hn
    simp only [List.length_take]
    omega
  unfold matchResidualAt at h
  cases o1 : (match pStr ("%%=".data) s with
     | none => none
     | some t =>
       (firstIdx (fun j => startsWithS ("=%%".data) (t.drop (j + 1))) t.length).map
         (fun j => s.take (3 + (j + 1) + 3))) with
  | some f1 =>
    rw [o1] at h
    cases h
    cases o2 : pStr ("%%=".data) s with
    | none => simp only [o2] at o1; cases o1
    | some t =>
      simp only [o2] at o1
      cases o3 : firstIdx (fun j => startsWithS ("=%%".data) (t.drop (j + 1))) t.length with
      | none => simp only [o3] at o1; cases o1
      | some j =>
        simp only [o3] at o1
        simp at o1
        subst o1
        exact hgen _ (by omega)
  | none =>
    rw [o1] at h
    cases o4 : (match pStr ("%%[".data) s with
       | none => none
       | some t =>
         (firstIdx (fun j => startsWithS ("]%%".data) (t.drop j)) (t.length + 1)).map
           (fun j => s.take (3 + j + 3))) with
    | some f2 =>
      rw [o4] at h
      cases h
      cases o5 : pStr ("%%[".data) s with
      | none => simp only [o5] at o4; cases o4
      | some t =>
        simp only [o5] at o4
        cases o6 : firstIdx (fun j => startsWithS ("]%%".data) (t.drop j)) (t.length + 1) with
        | none => simp only [o6] at o4; cases o4
        | some j =>
          simp only [o6] at o4
          simp at o4
          subst o4
          exact hgen _ (by omega)
    | none =>
      rw [o4] at h
      cases o7 : pStrCI ("<script".data) s with
      | none => simp only [o7] at h; cases h
      | some t =>
        simp only [o7] at h
        split at h
        · cases h
        · split at h
          · cases h
          · cases o8 : firstIdx
                (fun j => startsWithCI ("</script>".data)
                  ((t.drop ((t.takeWhile (fun c => !(c == '>'))).length + 1)).drop j))
                ((t.drop ((t.takeWhile (fun c => !(c == '>'))).length + 1)).length + 1) with
            | none => rw [o8] at h; cases h
            | some j =>
              rw [o8] at h
              simp at h
              subst h
              exact hgen _ (by omega)

theorem matchLetTokAt_len {s : Str} {txt : Str} {n : Nat}
    (h : matchLetTokAt s = some (txt, n)) : 1 ≤ n := by
  unfold matchLetTokAt at h
  cases o1 : pStr ("\x7b%".data) s with
  | none => simp only [o1] at h; cases h
  | some t1 =>
    simp only [o1] at h
    cases o2 : pStrCI ("let".data) (t1.drop (t1.takeWhile isWsC).length) with
    | none => simp only [o2] at h; cases h
    | some tail =>
      simp only [o2] at h
      split at h
      · simp only [Option.some.injEq, Prod.mk.injEq] at h
        omega
      · cases h

-- Claim theorems
-- ===========================================================================

/-- C1, counterexample: an IF block whose then branch holds the article
    print immediately followed by the plan print, with content A before the
    pair and B after it.  The Block Converter emits only the condition tag,
    the fixed construct and the closing tag: the surrounding content A and B
    of the then branch is not preserved, refuting that the rest of the
    then-branch content is preserved in the emitted output. -/
theorem C1_counterexample :
    (V4.convert_ampscript_if_blocks
      ("%%[IF @x THEN]%%A%%=v(@the)=%%%%=v(@planname)=%%B%%[ENDIF]%%".data)
      ⟨[], []⟩ []).1 =
      ("\x7b% if x %\x7d".data) ++ V4.thePlanConstruct ++ ("\x7b%/if%\x7d".data) ∧
    containsSub ("A".data)
      (V4.convert_ampscript_if_blocks
        ("%%[IF @x THEN]%%A%%=v(@the)=%%%%=v(@planname)=%%B%%[ENDIF]%%".data)
        ⟨[], []⟩ []).1 = false ∧
    containsSub ("B".data)
      (V4.convert_ampscript_if_blocks
        ("%%[IF @x THEN]%%A%%=v(@the)=%%%%=v(@planname)=%%B%%[ENDIF]%%".data)
        ⟨[], []⟩ []).1 = false := by
  refine ⟨by decide, by decide, by decide⟩

/-- C2, counterexample: in the v3 generation the mapping row with source
    referencing the two variables The and PlanName and a clean binding
    declaration in the target cell does produce VariableMapping entries for
    both the and planname, refuting the claim for that generation's
    inferencer. -/
theorem C2_counterexample :
    lookupVE (V3.extract_var_expressions
      [(("@The@PlanName".data), ("\x7b% let PlanName = (profile.planName) %\x7d".data))]).1
      ("the".data) = some ("PlanName".data) ∧
    lookupVE (V3.extract_var_expressions
      [(("@The@PlanName".data), ("\x7b% let PlanName = (profile.planName) %\x7d".data))]).1
      ("planname".data) = some ("PlanName".data) := by
  refine ⟨by decide, by decide⟩

/-- C3, counterexample: the variable foo has an entry in VariableMapping,
    but the mapped expression equals the raw spelling, so the pass leaves
    the token untouched instead of emitting the Liquid print, refuting the
    only-if-unmapped direction of the claim. -/
theorem C3_counterexample :
    lookupVE [(("foo".data), ("foo".data))] ("foo".data) = some ("foo".data) ∧
    replace_all_prints (printTok ("foo".data)) [(("foo".data), ("foo".data))] =
      printTok ("foo".data) ∧
    replace_all_prints (printTok ("foo".data)) [(("foo".data), ("foo".data))] ≠
      ("\x7b\x7b foo \x7d\x7d".data) := by
  refine ⟨by decide, by decide, by decide⟩

/-- C4, counterexample: the condition beginning with the elseif keyword is
    captured by the earlier NOT-EMPTY form, which re.search finds inside the
    string, so the translator emits a plain opening-if marker and never
    reaches the elseif rewrite. -/
theorem C4_counterexample :
    V4.translate_condition_to_liquid ("elseif NOT EMPTY(@x)".data) ⟨[], []⟩ [] =
      (("\x7b% if length(x) > 0 %\x7d".data), ⟨[("x".data)], []⟩) ∧
    startsWithS ("\x7b% elseif".data)
      (V4.translate_condition_to_liquid ("elseif NOT EMPTY(@x)".data) ⟨[], []⟩ []).1 = false := by
  refine ⟨by decide, by decide⟩

/-- C5, counterexample: an attribute on its own line whose value is exactly
    one print token.  The match of the Phase-A regex starts at the newline
    before the attribute name, so the CommentedFragment is recorded at line
    1, while the token itself (at offset 7) stands on line 2. -/
theorem C5_counterexample :
    (V4.comment_ampscript_with_hoist ("a\nsrc=\x22%%=v(@x)=%%\x22".data)).2.head? =
      some (1, printTok ("x".data)) ∧
    (("a\nsrc=\x22%%=v(@x)=%%\x22".data).drop 7).take 11 = printTok ("x".data) ∧
    countNl (("a\nsrc=\x22%%=v(@x)=%%\x22".data).take 7) + 1 = 2 := by
  refine ⟨by decide, by decide, by decide⟩

-- Supporting lemmas --------------------------------------------------------

theorem mem_setIns {cov : List Str} {x y : Str} (h : x ∈ cov) : x ∈ setIns cov y := by
  unfold setIns
  split
  · exact h
  · exact List.mem_append_left _ h

theorem learn_expr_covered {v : Str} {ve : List (Str × Str)} {cov : List Str} {x : Str}
    (h : x ∈ cov) : x ∈ (learn_expr v ve cov).2 := by
  unfold learn_expr
  dsimp only
  split
  · exact h
  · exact mem_setIns h

theorem translateGo_covered_mono :
    ∀ (fuel : Nat) (cond : Str) (st : TCState) (ve : List (Str × Str)) (x : Str),
      x ∈ st.covered → x ∈ (V4.translateGo fuel cond st ve).2.covered := by
  intro fuel
  induction fuel with
  | zero =>
    intro cond st ve x hx
    unfold V4.translateGo
    dsimp only
    split
    · exact learn_expr_covered hx
    · split
      · exact learn_expr_covered hx
      · split
        · exact learn_expr_covered hx
        · split
          · exact learn_expr_covered hx
          · split
            · exact learn_expr_covered hx
            · split
              · exact hx
              · exact hx
  | succ n ih =>
    intro cond st ve x hx
    unfold V4.translateGo
    dsimp only
    split
    · exact learn_expr_covered hx
    · split
      · exact learn_expr_covered hx
      · split
        · exact learn_expr_covered hx
        · split
          · exact learn_expr_covered hx
          · split
            · exact learn_expr_covered hx
            · split
              · exact ih _ _ _ _ hx
              · exact hx

theorem translate_covered_mono {cond : Str} {st : TCState} {ve : List (Str × Str)}
    {x : Str} (h : x ∈ st.covered) :
    x ∈ (V4.translate_condition_to_liquid cond st ve).2.covered :=
  translateGo_covered_mono _ _ _ _ _ h

theorem replIfBlock_snd (m : IfMatch) (st : TCState) (ve : List (Str × Str)) :
    (V4.replIfBlock m st ve).2 =
      (V4.translate_condition_to_liquid (strip m.cond) st ve).2 := by
  unfold V4.replIfBlock
  dsimp only
  split
  · rfl
  · split
    · rfl
    · rfl

theorem convertGo_covered_mono (ve : List (Str × Str)) :
    ∀ (fuel : Nat) (s : Str) (st : TCState) (x : Str),
      x ∈ st.covered → x ∈ (V4.convertGo ve fuel s st).2.covered := by
  intro fuel
  induction fuel with
  | zero => intro s st x hx; exact hx
  | succ n ih =>
    intro s st x hx
    cases s with
    | nil => exact hx
    | cons c rest =>
      unfold V4.convertGo
      split
      · rename_i m heq
        have h2 : x ∈ (V4.replIfBlock m st ve).2.covered := by
          rw [replIfBlock_snd]
          exact translate_covered_mono hx
        exact ih _ _ _ h2
      · exact ih _ _ _ hx

/-- C8: coverage monotonicity.  For every condition string, warning list,
    variable mapping and covered set, the covered set after a call of the
    Condition Translator is a superset of the covered set before; the Block
    Converter, the only other pass touching CoveredSet during a run, is
    likewise monotone. -/
theorem C8_covered_monotone :
    (∀ (cond : Str) (st : TCState) (ve : List (Str × Str)) (x : Str),
      x ∈ st.covered →
        x ∈ (V4.translate_condition_to_liquid cond st ve).2.covered) ∧
    (∀ (doc : Str) (st : TCState) (ve : List (Str × Str)) (x : Str),
      x ∈ st.covered →
        x ∈ (V4.convert_ampscript_if_blocks doc st ve).2.covered) := by
  constructor
  · intro cond st ve x hx
    exact translate_covered_mono hx
  · intro doc st ve x hx
    exact convertGo_covered_mono ve _ doc st x hx

/-- C8, witness: a covered name survives a concrete translator call that
    also inserts a new name. -/
theorem C8_witness :
    ("a".data) ∈ (TCState.mk [] [("a".data)]).covered ∧
    ("a".data) ∈ (V4.translate_condition_to_liquid ("@x".data)
      ⟨[], [("a".data)]⟩ [(("x".data), ("profile.x".data))]).2.covered :=
  ⟨by decide, C8_covered_monotone.1 ("@x".data) ⟨[], [("a".data)]⟩
    [(("x".data), ("profile.x".data))] ("a".data) (by decide)⟩

theorem translateGo_eq :
    ∀ (fuel : Nat) (cond : Str) (st : TCState) (ve : List (Str × Str)),
      V3.translateGo fuel cond st ve = V4.translateGo fuel cond st ve := by
  intro fuel
  induction fuel with
  | zero =>
    intro cond st ve
    unfold V3.translateGo V4.translateGo
    rfl
  | succ n ih =>
    intro cond st ve
    unfold V3.translateGo V4.translateGo
    dsimp only
    split
    · rfl
    · split
      · rfl
      · split
        · rfl
        · split
          · rfl
          · split
            · rfl
            · split
              · rw [ih]
              · rfl

/-- C10: the two generations' condition translators are extensionally
    equal: for every condition string, warning list, variable mapping and
    covered set they return the same text and leave the same warning list
    and covered set. -/
theorem C10_translators_extensionally_equal :
    ∀ (cond : Str) (st : TCState) (ve : List (Str × Str)),
      V3.translate_condition_to_liquid cond st ve =
        V4.translate_condition_to_liquid cond st ve := by
  intro cond st ve
  unfold V3.translate_condition_to_liquid V4.translate_condition_to_liquid
  exact translateGo_eq _ _ _ _

/-- C1, amended: whenever the then branch of a matched IF block contains a
    print of the reserved article variable and a print of the plan variable
    anywhere (case-insensitively, not necessarily adjacent), the converter
    emits the translated condition, the fixed conditional article construct
    in place of the whole then content, the raw else content when its trim
    is non-blank, and the closing tag; everything else the then branch
    contained is discarded. -/
theorem C1_then_branch_replaced :
    ∀ (m : IfMatch) (st : TCState) (ve : List (Str × Str)),
      containsCI ("%%=v(@the)=%%".data) m.thenB = true →
      containsCI ("%%=v(@planname)=%%".data) m.thenB = true →
      V4.replIfBlock m st ve =
        ((V4.translate_condition_to_liquid (strip m.cond) st ve).1 ++
          V4.thePlanConstruct ++
          (if !(strip m.elseB).isEmpty then ("\x7b% else %\x7d".data) ++ m.elseB else []) ++
          ("\x7b%/if%\x7d".data),
         (V4.translate_condition_to_liquid (strip m.cond) st ve).2) := by
  intro m st ve h1 h2
  unfold V4.replIfBlock
  dsimp only
  rw [h1, h2]
  rfl

/-- C1, witness for the amended statement at a concrete block. -/
theorem C1_witness :
    containsCI ("%%=v(@the)=%%".data)
      ("x %%=v(@the)=%% y %%=v(@planname)=%% z".data) = true ∧
    containsCI ("%%=v(@planname)=%%".data)
      ("x %%=v(@the)=%% y %%=v(@planname)=%% z".data) = true ∧
    V4.replIfBlock ⟨("@q".data), ("x %%=v(@the)=%% y %%=v(@planname)=%% z".data), [], []⟩
        ⟨[], []⟩ [] =
      ((V4.translate_condition_to_liquid (strip ("@q".data)) ⟨[], []⟩ []).1 ++
        V4.thePlanConstruct ++
        (if !(strip ([] : Str)).isEmpty then ("\x7b% else %\x7d".data) ++ ([] : Str) else []) ++
        ("\x7b%/if%\x7d".data),
       (V4.translate_condition_to_liquid (strip ("@q".data)) ⟨[], []⟩ []).2) :=
  ⟨by decide, by decide,
    C1_then_branch_replaced ⟨("@q".data), ("x %%=v(@the)=%% y %%=v(@planname)=%% z".data), [], []⟩
      ⟨[], []⟩ [] (by decide) (by decide)⟩

theorem foldl_fst_const {α : Type} :
    ∀ (l : List α)
      (f : (List (Str × Str) × List Str) → α → (List (Str × Str) × List Str))
      (hf : ∀ acc a, (f acc a).1 = acc.1) (acc : (List (Str × Str) × List Str)),
      (l.foldl f acc).1 = acc.1 := by
  intro l
  induction l with
  | nil => intro f hf acc; rfl
  | cons a t ih =>
    intro f hf acc
    rw [List.foldl_cons, ih f hf, hf]

/-- C2, amended: the v4 inferencer adds no VariableMapping entry from a row
    whose source pattern references two or more distinct variables (the v3
    generation has no such guard and does add entries, see the
    counterexample). -/
theorem C2_single_variable_guard :
    ∀ (ve : List (Str × Str)) (cov : List Str) (sfmc ajo : Str),
      2 ≤ ((findAtVars sfmc).map lowerS).dedup.length →
      (V4.processRow (ve, cov) (sfmc, ajo)).1 = ve := by
  intro ve cov sfmc ajo h2
  unfold V4.processRow
  dsimp only
  have hne : (findAtVars sfmc).isEmpty = false := by
    cases hfe : findAtVars sfmc with
    | nil => rw [hfe] at h2; simp at h2
    | cons a l => rfl
  rw [hne]
  simp only [Bool.false_eq_true, if_false]
  have hsingle : (((findAtVars sfmc).map lowerS).dedup.length == 1) = false := by
    rw [beq_eq_false_iff_ne]
    omega
  refine foldl_fst_const _ _ ?_ _
  intro acc2 v
  dsimp only
  split
  · rfl
  · rw [hsingle, Bool.and_false]
    simp only [Bool.false_eq_true, if_false]
    split
    · rfl
    · rfl

/-- C2, witness for the amended statement at the two-variable row. -/
theorem C2_witness :
    2 ≤ ((findAtVars ("@The@PlanName".data)).map lowerS).dedup.length ∧
    (V4.processRow ([], []) (("@The@PlanName".data),
      ("\x7b% let PlanName = (profile.planName) %\x7d".data))).1 = [] :=
  ⟨by decide, C2_single_variable_guard [] [] ("@The@PlanName".data)
    ("\x7b% let PlanName = (profile.planName) %\x7d".data) (by decide)⟩

/-- C7: a mapping row whose trimmed target is blank contributes every match
    of its whitespace-tolerant pattern to the matches-found total but
    applies no substitution: the document and the substitutions-applied
    total are unchanged by it.  The second part lifts this over any row
    sequence of blank-target rows. -/
theorem C7_blank_target_detect_only :
    (∀ (st : SubState) (row : Str × Str),
      strip row.2 = [] → strip row.1 ≠ [] →
      literalRowStep st row =
        ⟨st.work,
         st.found + (flexScan (build_flex_regex (strip row.1)) [] st.work).2,
         st.replaced⟩) ∧
    (∀ (rows : List (Str × Str)) (st : SubState),
      (∀ r ∈ rows, strip r.2 = []) →
      (rows.foldl literalRowStep st).work = st.work ∧
      (rows.foldl literalRowStep st).replaced = st.replaced) := by
  constructor
  · intro st row hb hs
    unfold literalRowStep
    dsimp only
    have h1 : (strip row.1).isEmpty = false := by
      cases hq : strip row.1 with
      | nil => exact absurd hq hs
      | cons a l => rfl
    rw [h1]
    simp only [Bool.false_eq_true, if_false]
    have h2 : (strip row.2).isEmpty = true := by rw [hb]; rfl
    rw [h2]
    by_cases hn : (flexScan (build_flex_regex (strip row.1)) [] st.work).2 = 0
    · rw [hn]
      simp only [beq_self_eq_true, if_true, Nat.add_zero]
    · have hn2 : ((flexScan (build_flex_regex (strip row.1)) [] st.work).2 == 0) = false := by
        rw [beq_eq_false_iff_ne]
        exact hn
      rw [hn2]
      simp only [Bool.false_eq_true, if_false, Bool.not_true]
  · intro rows
    induction rows with
    | nil => intro st hb; exact ⟨rfl, rfl⟩
    | cons r t ih =>
      intro st hb
      rw [List.foldl_cons]
      have hr := hb r (by simp)
      have hstep : (literalRowStep st r).work = st.work ∧
          (literalRowStep st r).replaced = st.replaced := by
        unfold literalRowStep
        dsimp only
        by_cases h1 : (strip r.1).isEmpty = true
        · rw [h1]
          exact ⟨rfl, rfl⟩
        · rw [Bool.eq_false_iff.mpr h1]
          simp only [Bool.false_eq_true, if_false]
          have h2 : (strip r.2).isEmpty = true := by rw [hr]; rfl
          rw [h2]
          by_cases hn : ((flexScan (build_flex_regex (strip r.1)) [] st.work).2 == 0) = true
          · rw [hn]
            exact ⟨rfl, rfl⟩
          · rw [Bool.eq_false_iff.mpr hn]
            simp
      obtain ⟨hw, hp⟩ := ih (literalRowStep st r) (fun x hx => hb x (by simp [hx]))
      constructor
      · rw [hw, hstep.1]
      · rw [hp, hstep.2]

/-- C7, witness at a concrete blank-target row with two matches. -/
theorem C7_witness :
    strip (("   ".data) : Str) = [] ∧ strip ("a  b".data) ≠ [] ∧
    literalRowStep ⟨("ab a b".data), 3, 5⟩ (("a  b".data), ("   ".data)) =
      ⟨("ab a b".data),
       3 + (flexScan (build_flex_regex (strip ("a  b".data))) [] ("ab a b".data)).2,
       5⟩ :=
  ⟨by decide, by decide,
    C7_blank_target_detect_only.1 ⟨("ab a b".data), 3, 5⟩ (("a  b".data), ("   ".data))
      (by decide) (by decide)⟩

theorem takeWhile_append_word (v r : Str) (hv : ∀ c ∈ v, isWordC c = true) :
    (v ++ ')' :: r).takeWhile isWordC = v := by
  induction v with
  | nil => rfl
  | cons a t ih =>
    have ha : isWordC a = true := hv a (by simp)
    simp [List.takeWhile_cons, ha, ih (fun c hc => hv c (by simp [hc]))]

theorem matchPrintTokAt_token (v : Str) (hv1 : v ≠ []) (hv : ∀ c ∈ v, isWordC c = true) :
    matchPrintTokAt (printTok v) = some (printTok v, v, []) := by
  have hdecomp : printTok v =
      '%' :: '%' :: '=' :: 'v' :: '(' :: '@' :: (v ++ (")=%%".data)) := rfl
  rw [hdecomp]
  unfold matchPrintTokAt
  rw [show pStr ("%%=".data) ('%' :: '%' :: '=' :: 'v' :: '(' :: '@' :: (v ++ (")=%%".data))) =
      some ('v' :: '(' :: '@' :: (v ++ (")=%%".data))) from rfl]
  dsimp only
  rw [show pCharIs (fun c => lowerC c == 'v') ('v' :: '(' :: '@' :: (v ++ (")=%%".data))) =
      some ('v', '(' :: '@' :: (v ++ (")=%%".data))) from rfl]
  dsimp only
  rw [show pStr ("(@".data) ('(' :: '@' :: (v ++ (")=%%".data))) =
      some (v ++ (")=%%".data)) from rfl]
  dsimp only
  have hw : pWord (v ++ (")=%%".data)) = some (v, (")=%%".data)) := by
    unfold pWord
    have ht : (v ++ (")=%%".data)).takeWhile isWordC = v := takeWhile_append_word v _ hv
    rw [ht]
    have hne : v.isEmpty = false := by
      cases v with
      | nil => exact absurd rfl hv1
      | cons a t => rfl
    dsimp only
    rw [hne]
    simp only [Bool.false_eq_true, if_false]
    rw [List.drop_left]
  rw [hw]
  dsimp only
  rfl

theorem replaceAllPrintsGo_nil (ve : List (Str × Str)) :
    ∀ fuel, replaceAllPrintsGo ve fuel [] = [] := by
  intro fuel
  cases fuel with
  | zero => rfl
  | succ n => rfl

/-- C3, amended: the Print Substitution Pass converts a single-variable
    print token exactly when the case-folded lookup yields an expression
    different from the variable's spelling in the token; in particular a
    token whose mapped expression coincides with its own variable text is
    left byte-for-byte untouched even though a mapping exists. -/
theorem C3_print_substitution :
    ∀ (ve : List (Str × Str)) (v : Str), v ≠ [] → (∀ c ∈ v, isWordC c = true) →
      (replace_all_prints (printTok v) ve =
        (if resolve_expr v ve == v then printTok v
         else ("\x7b\x7b ".data) ++ resolve_expr v ve ++ (" \x7d\x7d".data))) ∧
      (replace_all_prints (printTok v) ve = printTok v ↔ resolve_expr v ve = v) := by
  intro ve v hv1 hv
  have hmain : replace_all_prints (printTok v) ve =
      (if resolve_expr v ve == v then printTok v
       else ("\x7b\x7b ".data) ++ resolve_expr v ve ++ (" \x7d\x7d".data)) := by
    unfold replace_all_prints
    have hlen : (printTok v).length + 1 = v.length + 11 := by
      simp [printTok]
    rw [hlen]
    have hcons : printTok v =
        '%' :: '%' :: '=' :: 'v' :: '(' :: '@' :: (v ++ (")=%%".data)) := rfl
    rw [hcons]
    unfold replaceAllPrintsGo
    rw [← hcons, matchPrintTokAt_token v hv1 hv]
    dsimp only
    rw [replaceAllPrintsGo_nil]
    rw [List.append_nil]
  refine ⟨hmain, ?_, ?_⟩
  · intro hout
    by_cases hres : (resolve_expr v ve == v) = true
    · exact eq_of_beq hres
    · rw [hmain, Bool.eq_false_iff.mpr hres] at hout
      simp only [Bool.false_eq_true, if_false] at hout
      have hcontra : ('\x7b' : Char) = '%' := by
        have h0 := congrArg (fun l => l.head?) hout
        simp only [printTok] at h0
        simpa using h0
      cases hcontra
  · intro hres
    rw [hmain, beq_iff_eq.mpr hres]
    simp

/-- C3, witness for the amended statement: a mapped variable with a
    differing expression is converted; the hypotheses hold at foo. -/
theorem C3_witness :
    (("foo".data) : Str) ≠ [] ∧ (∀ c ∈ (("foo".data) : Str), isWordC c = true) ∧
    (replace_all_prints (printTok ("foo".data)) [(("foo".data), ("profile.foo".data))] =
      (if resolve_expr ("foo".data) [(("foo".data), ("profile.foo".data))] == ("foo".data)
       then printTok ("foo".data)
       else ("\x7b\x7b ".data) ++
         resolve_expr ("foo".data) [(("foo".data), ("profile.foo".data))] ++
         (" \x7d\x7d".data))) :=
  ⟨by decide, by decide,
    (C3_print_substitution [(("foo".data), ("profile.foo".data))] ("foo".data)
      (by decide) (by decide)).1⟩

theorem translateGo_fuel_irrel :
    ∀ (n : Nat) (cond : Str), cond.length ≤ n → ∀ (f1 f2 : Nat), n < f1 → n < f2 →
      ∀ (st : TCState) (ve : List (Str × Str)),
        V4.translateGo f1 cond st ve = V4.translateGo f2 cond st ve := by
  intro n
  induction n using Nat.strong_induction_on with
  | _ n ih =>
    intro cond hc f1 f2 h1 h2 st ve
    match f1, h1 with
    | a + 1, h1 =>
    match f2, h2 with
    | b + 1, h2 =>
    unfold V4.translateGo
    dsimp only
    split
    · rfl
    · split
      · rfl
      · split
        · rfl
        · split
          · rfl
          · split
            · rfl
            · split
              · rename_i hE
                have h7 : 7 ≤ (strip cond).length := by
                  have h3 := startsWithS_length
                    (p := lowerS ("elseif ".data)) (s := lowerS (strip cond)) hE
                  simpa [lowerS] using h3
                have hsc : (strip cond).length ≤ cond.length := strip_length_le cond
                have hinner : (strip ((strip cond).drop 7)).length ≤ (strip cond).length - 7 := by
                  have h5 := strip_length_le ((strip cond).drop 7)
                  simp only [List.length_drop] at h5
                  omega
                rw [ih (n - 7) (by omega) (strip ((strip cond).drop 7)) (by omega)
                  a b (by omega) (by omega)]
              · rfl

/-- C4, amended: a condition beginning with the case-insensitive keyword
    elseif is rewritten through the recursive translation with the opening
    marker turned into the else-if marker only when none of the five
    specific forms matches anywhere in the stripped condition first; the
    seven forms are tried in the source's priority order, the elseif rule
    sixth, with the first match winning (see the counterexample for an
    elseif condition captured by an earlier form). -/
theorem C4_elseif_translation :
    ∀ (cond : Str) (st : TCState) (ve : List (Str × Str)),
      searchPos matchNotEmptyAt (strip cond) = none →
      searchPos matchEmptyAt (strip cond) = none →
      searchPos matchContainsAt (strip cond) = none →
      searchPos matchCmpAt (strip cond) = none →
      matchTruthy (strip cond) = none →
      startsWithCI ("elseif ".data) (strip cond) = true →
      V4.translate_condition_to_liquid cond st ve =
        (replaceAllSub ("\x7b% if".data) ("\x7b% elseif".data)
          (V4.translate_condition_to_liquid (strip ((strip cond).drop 7))
            ⟨st.warnings ++ (findAtVars (strip cond)).filter
              (fun v => !(st.covered.contains (lowerS v)) &&
                        !(allowListed.contains (lowerS v))),
             st.covered⟩ ve).1,
         (V4.translate_condition_to_liquid (strip ((strip cond).drop 7))
            ⟨st.warnings ++ (findAtVars (strip cond)).filter
              (fun v => !(st.covered.contains (lowerS v)) &&
                        !(allowListed.contains (lowerS v))),
             st.covered⟩ ve).2) := by
  intro cond st ve hn1 hn2 hn3 hn4 hn5 hE
  have h7 : 7 ≤ (strip cond).length := by
    have h3 := startsWithS_length
      (p := lowerS ("elseif ".data)) (s := lowerS (strip cond)) hE
    simpa [lowerS] using h3
  have hsc : (strip cond).length ≤ cond.length := strip_length_le cond
  have hinner : (strip ((strip cond).drop 7)).length ≤ (strip cond).length - 7 := by
    have h5 := strip_length_le ((strip cond).drop 7)
    simp only [List.length_drop] at h5
    omega
  conv_lhs => unfold V4.translate_condition_to_liquid V4.translateGo
  dsimp only
  rw [hn1]
  dsimp only
  rw [hn2]
  dsimp only
  rw [hn3]
  dsimp only
  rw [hn4]
  dsimp only
  rw [hn5]
  dsimp only
  rw [hE]
  simp only [if_true]
  conv_rhs => unfold V4.translate_condition_to_liquid
  rw [translateGo_fuel_irrel ((strip ((strip cond).drop 7)).length)
    (strip ((strip cond).drop 7)) (le_refl _) cond.length
    ((strip ((strip cond).drop 7)).length + 1) (by omega) (by omega)]

/-- C4, witness for the amended statement at a concrete elseif condition
    that none of the five specific forms matches. -/
theorem C4_witness :
    searchPos matchNotEmptyAt (strip ("elseif @x".data)) = none ∧
    startsWithCI ("elseif ".data) (strip ("elseif @x".data)) = true ∧
    V4.translate_condition_to_liquid ("elseif @x".data) ⟨[], []⟩ [] =
      (replaceAllSub ("\x7b% if".data) ("\x7b% elseif".data)
        (V4.translate_condition_to_liquid (strip ((strip ("elseif @x".data)).drop 7))
          ⟨([] : List Str) ++ (findAtVars (strip ("elseif @x".data))).filter
            (fun v => !((([] : List Str)).contains (lowerS v)) &&
                      !(allowListed.contains (lowerS v))),
           []⟩ []).1,
       (V4.translate_condition_to_liquid (strip ((strip ("elseif @x".data)).drop 7))
          ⟨([] : List Str) ++ (findAtVars (strip ("elseif @x".data))).filter
            (fun v => !((([] : List Str)).contains (lowerS v)) &&
                      !(allowListed.contains (lowerS v))),
           []⟩ []).2) :=
  ⟨by decide, by decide,
    C4_elseif_translation ("elseif @x".data) ⟨[], []⟩ []
      (by decide) (by decide) (by decide) (by decide) (by decide) (by decide)⟩

-- Suffix tracking for the block-regex search, used to show that a match
-- requires an ENDIF delimiter somewhere after the opener.

theorem pStr_suffix {lit s r : Str} (h : pStr lit s = some r) : r <:+ s := by
  unfold pStr at h
  split at h
  · cases h; exact List.drop_suffix _ _
  · cases h

theorem pStrCI_suffix {lit s r : Str} (h : pStrCI lit s = some r) : r <:+ s := by
  unfold pStrCI at h
  split at h
  · cases h; exact List.drop_suffix _ _
  · cases h

theorem pWsStar_suffix (s : Str) : pWsStar s <:+ s := List.dropWhile_suffix _

theorem pWsPlus_suffix {s r : Str} (h : pWsPlus s = some r) : r <:+ s := by
  unfold pWsPlus at h
  cases s with
  | nil => cases h
  | cons c rest =>
    by_cases hc : isWsC c = true
    · simp only [hc, if_true, Option.some.injEq] at h
      subst h
      exact (pWsStar_suffix rest).trans (List.suffix_cons c rest)
    · simp only [hc] at h
      simp at h

theorem matchHeaderAt_suffix {kw s r : Str} (h : matchHeaderAt kw s = some r) : r <:+ s := by
  unfold matchHeaderAt at h
  cases h1 : pStr ("%%[".data) s with
  | none => simp only [h1] at h; cases h
  | some s1 =>
    simp only [h1] at h
    cases h2 : pStrCI kw (pWsStar s1) with
    | none => simp only [h2] at h; cases h
    | some s2 =>
      simp only [h2] at h
      exact ((((pStr_suffix h).trans (pWsStar_suffix s2)).trans
        (pStrCI_suffix h2)).trans (pWsStar_suffix s1)).trans (pStr_suffix h1)

theorem closeAfterCond_suffix {s r : Str} (h : closeAfterCond s = some r) : r <:+ s := by
  unfold closeAfterCond at h
  cases h0 : (match pWsPlus s with
     | none => none
     | some s1 =>
       match pStrCI ("THEN".data) s1 with
       | none => none
       | some s2 => pStr ("]%%".data) (pWsStar s2)) with
  | some r2 =>
    rw [h0] at h
    cases h
    cases h1 : pWsPlus s with
    | none => simp only [h1] at h0; cases h0
    | some s1 =>
      simp only [h1] at h0
      cases h2 : pStrCI ("THEN".data) s1 with
      | none => simp only [h2] at h0; cases h0
      | some s2 =>
        simp only [h2] at h0
        exact (((pStr_suffix h0).trans (pWsStar_suffix s2)).trans
          (pStrCI_suffix h2)).trans (pWsPlus_suffix h1)
  | none =>
    rw [h0] at h
    exact (pStr_suffix h).trans (pWsStar_suffix s)

theorem ifOpenCandidates_suffix {s : Str} {cond rest : Str}
    (h : (cond, rest) ∈ ifOpenCandidates s) : rest <:+ s := by
  unfold ifOpenCandidates at h
  cases h1 : pStr ("%%[".data) s with
  | none => simp only [h1] at h; cases h
  | some t1 =>
    simp only [h1] at h
    cases h2 : pStrCI ("IF".data) (pWsStar t1) with
    | none => simp only [h2] at h; cases h
    | some t3 =>
      simp only [h2] at h
      rw [List.mem_flatMap] at h
      obtain ⟨w, hw, hmem⟩ := h
      by_cases hw0 : w == 0
      · simp [hw0] at hmem
      · simp only [hw0, Bool.false_eq_true, if_false] at hmem
        rw [List.mem_filterMap] at hmem
        obtain ⟨k, hk, hck⟩ := hmem
        cases hc : closeAfterCond ((t3.drop w).drop (k + 1)) with
        | none => rw [hc] at hck; cases hck
        | some r2 =>
          rw [hc] at hck
          simp at hck
          obtain ⟨-, hrest⟩ := hck
          subst hrest
          have hs1 : ((t3.drop w).drop (k + 1)) <:+ t3 :=
            (List.drop_suffix _ _).trans (List.drop_suffix _ _)
          exact ((((closeAfterCond_suffix hc).trans hs1).trans
            (pStrCI_suffix h2)).trans (pWsStar_suffix t1)).trans (pStr_suffix h1)

theorem matchIfBlockAt_endif {s : Str} {m : IfMatch} (h : matchIfBlockAt s = some m) :
    ∃ u, u <:+ s ∧ (matchHeaderAt ("ENDIF".data) u).isSome = true := by
  unfold matchIfBlockAt at h
  obtain ⟨p, hp, hfp⟩ := firstSome_eq_some h
  obtain ⟨cond, rest⟩ := p
  dsimp only at hfp
  have hrest : rest <:+ s := ifOpenCandidates_suffix hp
  cases hb : bodySearch rest with
  | none => rw [hb] at hfp; cases hfp
  | some q =>
    unfold bodySearch at hb
    obtain ⟨t, ht, hft⟩ := firstSome_eq_some hb
    dsimp only at hft
    cases hElse : matchHeaderAt ("ELSE".data) (rest.drop t) with
    | some v =>
      simp only [hElse] at hft
      obtain ⟨e, he, hfe⟩ := firstSome_eq_some hft
      cases hEnd : matchHeaderAt ("ENDIF".data) (v.drop e) with
      | none => rw [hEnd] at hfe; cases hfe
      | some fin2 =>
        refine ⟨v.drop e, ?_, by rw [hEnd]; rfl⟩
        exact (((List.drop_suffix _ _).trans (matchHeaderAt_suffix hElse)).trans
          (List.drop_suffix _ _)).trans hrest
    | none =>
      simp only [hElse] at hft
      cases hEnd : matchHeaderAt ("ENDIF".data) (rest.drop t) with
      | none => rw [hEnd] at hft; cases hft
      | some fin2 =>
        refine ⟨rest.drop t, ?_, by rw [hEnd]; rfl⟩
        exact (List.drop_suffix _ _).trans hrest

theorem containsEndif_false_all {s : Str} (h : containsEndif s = false) :
    ∀ k, matchHeaderAt ("ENDIF".data) (s.drop k) = none := by
  intro k
  by_cases hk : k ≤ s.length
  · unfold containsEndif at h
    rw [List.any_eq_false] at h
    have := h k (by rw [List.mem_range]; omega)
    cases hm : matchHeaderAt ("ENDIF".data) (s.drop k) with
    | none => rfl
    | some r => rw [hm] at this; exact absurd rfl this
  · rw [List.drop_eq_nil_of_le (by omega)]
    rfl

theorem matchIfBlockAt_none_of_noEndif {s : Str}
    (h : ∀ k, matchHeaderAt ("ENDIF".data) (s.drop k) = none) :
    matchIfBlockAt s = none := by
  cases hm : matchIfBlockAt s with
  | none => rfl
  | some m =>
    obtain ⟨u, hu, hiu⟩ := matchIfBlockAt_endif hm
    obtain ⟨t, hts⟩ := hu
    have hdrop : s.drop t.length = u := by rw [← hts, List.drop_left]
    rw [← hdrop] at hiu
    rw [h t.length] at hiu
    cases hiu

theorem convertGo_id (ve : List (Str × Str)) :
    ∀ (fuel : Nat) (s : Str) (st : TCState),
      (∀ k, matchHeaderAt ("ENDIF".data) (s.drop k) = none) →
      V4.convertGo ve fuel s st = (s, st) := by
  intro fuel
  induction fuel with
  | zero => intro s st hend; rfl
  | succ n ih =>
    intro s st hend
    cases s with
    | nil => rfl
    | cons c rest =>
      unfold V4.convertGo
      rw [matchIfBlockAt_none_of_noEndif hend]
      dsimp only
      rw [ih rest st (fun k => by
        have := hend (k + 1)
        rwa [List.drop_succ_cons] at this)]

/-- C9: an IF opener with no ENDIF delimiter anywhere in the document is
    not matched by the Block Converter, which returns the document and
    state unchanged; the Safe Commenting pass then wraps the residual
    bracket fragment in an HTML comment and records it with its line, as
    the concrete unbalanced document shows.  Every pass is a total
    function, so no input can raise an error. -/
theorem C9_unbalanced_if_passthrough :
    (∀ (doc : Str) (st : TCState) (ve : List (Str × Str)),
      containsEndif doc = false →
      V4.convert_ampscript_if_blocks doc st ve = (doc, st)) ∧
    V4.comment_ampscript_with_hoist ("x\n%%[ IF @a THEN ]%%y".data) =
      (("x\n<!-- %%[ IF @a THEN ]%% -->y".data),
       [(2, ("%%[ IF @a THEN ]%%".data))]) := by
  constructor
  · intro doc st ve hend
    unfold V4.convert_ampscript_if_blocks
    exact convertGo_id ve _ doc st (containsEndif_false_all hend)
  · decide

/-- C9, witness: the unbalanced document of the concrete part also passes
    through the Block Converter unchanged. -/
theorem C9_witness :
    containsEndif ("x\n%%[ IF @a THEN ]%%y".data) = false ∧
    V4.convert_ampscript_if_blocks ("x\n%%[ IF @a THEN ]%%y".data) ⟨[], []⟩ [] =
      (("x\n%%[ IF @a THEN ]%%y".data), ⟨[], []⟩) :=
  ⟨by decide,
    C9_unbalanced_if_passthrough.1 ("x\n%%[ IF @a THEN ]%%y".data) ⟨[], []⟩ [] (by decide)⟩

-- Substring-occurrence helpers ---------------------------------------------

theorem occursIn_here (a u v : Str) : occursIn a (u ++ a ++ v) := ⟨u, v, rfl⟩

theorem occursIn_appL {a b : Str} (c : Str) (h : occursIn a b) : occursIn a (c ++ b) := by
  obtain ⟨u, v, hb⟩ := h
  exact ⟨c ++ u, v, by rw [hb]; simp [List.append_assoc]⟩

theorem occursIn_appR {a b : Str} (c : Str) (h : occursIn a b) : occursIn a (b ++ c) := by
  obtain ⟨u, v, hb⟩ := h
  exact ⟨u, v ++ c, by rw [hb]; simp [List.append_assoc]⟩

theorem occursIn_trans {a b c : Str} (h1 : occursIn a b) (h2 : occursIn b c) :
    occursIn a c := by
  obtain ⟨u1, v1, hb⟩ := h1
  obtain ⟨u2, v2, hc⟩ := h2
  exact ⟨u2 ++ u1, v1 ++ v2, by rw [hc, hb]; simp [List.append_assoc]⟩

theorem occursIn_concatAll {a : Str} {l : List Str} (h : a ∈ l) :
    occursIn a (concatAll l) := by
  induction l with
  | nil => cases h
  | cons x t ih =>
    rcases List.mem_cons.mp h with h1 | h2
    · subst h1
      exact occursIn_appR _ ⟨[], [], by simp⟩
    · exact occursIn_appL x (ih h2)

-- Render membership: every recorded match's emission occurs in the
-- assembled output.

theorem renderP1_mem :
    ∀ (ms : List (Nat × AttrMatch)) (doc : Str) (last p : Nat) (m : AttrMatch),
      (p, m) ∈ ms → occursIn (attrRewrite m) (renderP1 doc last ms) := by
  intro ms
  induction ms with
  | nil => intro doc last p m h; cases h
  | cons hd tl ih =>
    intro doc last p m h
    obtain ⟨p0, m0⟩ := hd
    rcases List.mem_cons.mp h with h1 | h2
    · cases h1
      unfold renderP1
      exact occursIn_appR _ (occursIn_appL _
        (show occursIn (attrRewrite m) (attrRewrite m) from ⟨[], [], by simp⟩))
    · unfold renderP1
      have hrec := ih doc (p0 + attrMatchLen m0) p m h2
      exact occursIn_appL _ hrec

theorem renderP2_mem :
    ∀ (ms : List (Nat × Str)) (chunk : Str → Str) (doc : Str) (last p : Nat) (f : Str),
      (p, f) ∈ ms → occursIn (chunk f) (renderP2 chunk doc last ms) := by
  intro ms
  induction ms with
  | nil => intro chunk doc last p f h; cases h
  | cons hd tl ih =>
    intro chunk doc last p f h
    obtain ⟨p0, f0⟩ := hd
    rcases List.mem_cons.mp h with h1 | h2
    · cases h1
      unfold renderP2
      exact occursIn_appR _ (occursIn_appL _
        (show occursIn (chunk f) (chunk f) from ⟨[], [], by simp⟩))
    · unfold renderP2
      have hrec := ih chunk doc (p0 + f0.length) p f h2
      exact occursIn_appL _ hrec

-- Scanner soundness: membership of a scan record means the matcher
-- succeeds at that absolute position.

theorem phase1ScanGo_sound (doc : Str) :
    ∀ (fuel pos p : Nat) (m : AttrMatch),
      (p, m) ∈ phase1ScanGo doc fuel pos → matchAttrAt (doc.drop p) = some m := by
  intro fuel
  induction fuel with
  | zero => intro pos p m h; cases h
  | succ n ih =>
    intro pos p m h
    unfold phase1ScanGo at h
    split at h
    · cases h
    · cases hm : matchAttrAt (doc.drop pos) with
      | some m0 =>
        rw [hm] at h
        rcases List.mem_cons.mp h with h1 | h2
        · cases h1
          exact hm
        · exact ih _ _ _ h2
      | none =>
        rw [hm] at h
        exact ih _ _ _ h

theorem residualScanGo_sound (doc : Str) :
    ∀ (fuel pos p : Nat) (f : Str),
      (p, f) ∈ residualScanGo doc fuel pos → matchResidualAt (doc.drop p) = some f := by
  intro fuel
  induction fuel with
  | zero => intro pos p f h; cases h
  | succ n ih =>
    intro pos p f h
    unfold residualScanGo at h
    split at h
    · cases h
    · cases hm : matchResidualAt (doc.drop pos) with
      | some f0 =>
        rw [hm] at h
        rcases List.mem_cons.mp h with h1 | h2
        · cases h1
          exact hm
        · exact ih _ _ _ h2
      | none =>
        rw [hm] at h
        exact ih _ _ _ h

theorem startsWithS_append {p s : Str} (h : startsWithS p s = true) :
    s = p ++ s.drop p.length := by
  induction p generalizing s with
  | nil => simp
  | cons a as ih =>
    cases s with
    | nil => simp [startsWithS] at h
    | cons b bs =>
      simp only [startsWithS, Bool.and_eq_true, beq_iff_eq] at h
      obtain ⟨hab, hrest⟩ := h
      subst hab
      simpa using ih hrest

theorem dropWhile_eq_drop (p : Char → Bool) :
    ∀ l : Str, l.dropWhile p = l.drop (l.takeWhile p).length := by
  intro l
  induction l with
  | nil => rfl
  | cons c t ih =>
    by_cases hc : p c = true
    · simp [List.dropWhile_cons, List.takeWhile_cons, hc, ih]
    · simp [List.dropWhile_cons, List.takeWhile_cons, hc]

theorem takeWhile_self_append (p : Char → Bool) (l : Str) :
    l = l.takeWhile p ++ l.drop (l.takeWhile p).length := by
  conv_lhs => rw [← List.takeWhile_append_dropWhile (p := p) (l := l)]
  rw [dropWhile_eq_drop]

theorem matchAttrAt_sound {s : Str} {m : AttrMatch} (h : matchAttrAt s = some m) :
    s.take (attrMatchLen m) = m.pre ++ m.q :: (m.tok ++ [m.q]) := by
  unfold matchAttrAt at h
  cases s with
  | nil => cases h
  | cons c0 t0 =>
    dsimp only at h
    by_cases hws : isWsC c0 = true
    case neg => simp [hws] at h
    simp only [hws, Bool.not_true, Bool.false_eq_true, if_false] at h
    by_cases hname : (t0.takeWhile isAttrNameC).isEmpty = true
    case pos => simp [hname] at h
    rw [Bool.eq_false_iff.mpr hname] at h
    simp only [Bool.false_eq_true, if_false] at h
    cases h3 : pStr ("=".data)
        ((t0.drop (t0.takeWhile isAttrNameC).length).drop
          ((t0.drop (t0.takeWhile isAttrNameC).length).takeWhile isWsC).length) with
    | none => rw [h3] at h; cases h
    | some t3 =>
      rw [h3] at h
      cases h5 : pCharIs isQuoteC (t3.drop (t3.takeWhile isWsC).length) with
      | none => simp only [h5] at h; cases h
      | some qp =>
        simp only [h5] at h
        obtain ⟨q, t5⟩ := qp
        cases h6 : pStr ("%%=".data) t5 with
        | none => simp only [h6] at h; cases h
        | some t6 =>
          simp only [h6] at h
          cases h7 : firstIdx
              (fun k => startsWithS (("=%%".data) ++ [q]) (t6.drop k)) (t6.length + 1) with
          | none => simp only [h7] at h; cases h
          | some k =>
            simp only [h7, Option.some.injEq] at h
            subst h
            -- segment equations
            have e1 : t0 = t0.takeWhile isAttrNameC ++ t0.drop (t0.takeWhile isAttrNameC).length :=
              takeWhile_self_append _ _
            have e2 : t0.drop (t0.takeWhile isAttrNameC).length =
                (t0.drop (t0.takeWhile isAttrNameC).length).takeWhile isWsC ++
                  (t0.drop (t0.takeWhile isAttrNameC).length).drop
                    ((t0.drop (t0.takeWhile isAttrNameC).length).takeWhile isWsC).length :=
              takeWhile_self_append _ _
            have e3 : (t0.drop (t0.takeWhile isAttrNameC).length).drop
                ((t0.drop (t0.takeWhile isAttrNameC).length).takeWhile isWsC).length =
                '=' :: t3 := by
              unfold pStr at h3
              split at h3
              · rename_i hsw
                cases h3
                exact startsWithS_append hsw
              · cases h3
            have e4 : t3 = t3.takeWhile isWsC ++ t3.drop (t3.takeWhile isWsC).length :=
              takeWhile_self_append _ _
            have e5 : t3.drop (t3.takeWhile isWsC).length = q :: t5 ∧ isQuoteC q = true := by
              unfold pCharIs at h5
              cases hc : t3.drop (t3.takeWhile isWsC).length with
              | nil => rw [hc] at h5; cases h5
              | cons d r =>
                rw [hc] at h5
                by_cases hq : isQuoteC d = true
                · simp only [hq, if_true, Option.some.injEq, Prod.mk.injEq] at h5
                  obtain ⟨hqd, ht5⟩ := h5
                  subst hqd
                  subst ht5
                  exact ⟨rfl, hq⟩
                · simp [hq] at h5
            have e6 : t5 = ("%%=".data) ++ t6 := by
              unfold pStr at h6
              split at h6
              · rename_i hsw
                cases h6
                exact startsWithS_append hsw
              · cases h6
            have e7 : t6.drop k = (("=%%".data) ++ [q]) ++ (t6.drop k).drop 4 := by
              have hfind := List.find?_some h7
              have := startsWithS_append hfind
              simpa using this
            have e8 : t6 = t6.take k ++ t6.drop k := (List.take_append_drop _ _).symm
            -- assemble
            have hs : c0 :: t0 =
                ((c0 :: t0.takeWhile isAttrNameC ++
                  (t0.drop (t0.takeWhile isAttrNameC).length).takeWhile isWsC ++
                  '=' :: t3.takeWhile isWsC) ++
                 q :: ((("%%=".data) ++ t6.take k ++ ("=%%".data)) ++ [q])) ++
                (t6.drop k).drop 4 := by
              conv_lhs => rw [e1, e2, e3, e4, e5.1, e6, e8]
              conv_lhs => rw [e7]
              simp [List.append_assoc, List.cons_append, List.singleton_append]
            have hlen : attrMatchLen
                ⟨c0 :: t0.takeWhile isAttrNameC ++
                  (t0.drop (t0.takeWhile isAttrNameC).length).takeWhile isWsC ++
                  '=' :: t3.takeWhile isWsC, q,
                  ("%%=".data) ++ t6.take k ++ ("=%%".data)⟩ =
                ((c0 :: t0.takeWhile isAttrNameC ++
                  (t0.drop (t0.takeWhile isAttrNameC).length).takeWhile isWsC ++
                  '=' :: t3.takeWhile isWsC) ++
                 q :: ((("%%=".data) ++ t6.take k ++ ("=%%".data)) ++ [q])).length := by
              simp [attrMatchLen]
              omega
            rw [hlen, hs, List.take_left]

/-- C5, amended: for every Phase-A match, the matched span of the pre-pass
    document is exactly the attribute prefix, the quoted token and the
    closing quote; the Phase-A output contains that attribute with an
    emptied value immediately followed by an HTML comment holding the
    original token (so the token no longer stands inside the attribute
    value); and a CommentedFragment with the token is recorded at the line
    of the match start - the whitespace character preceding the attribute
    name - in the pre-pass document, which can be the line before the one
    the token stands on. -/
theorem C5_attribute_neutralization :
    ∀ (doc : Str) (p : Nat) (m : AttrMatch), (p, m) ∈ phase1Scan doc 0 →
      ((doc.drop p).take (attrMatchLen m) = m.pre ++ m.q :: (m.tok ++ [m.q])) ∧
      occursIn (m.pre ++ m.q :: m.q :: (" <!-- ".data) ++ m.tok ++ (" -->".data))
        (renderP1 doc 0 (phase1Scan doc 0)) ∧
      (countNl (doc.take p) + 1, m.tok) ∈ (V4.comment_ampscript_with_hoist doc).2 := by
  intro doc p m h
  have hsound := phase1ScanGo_sound doc (doc.length + 1) 0 p m h
  refine ⟨matchAttrAt_sound hsound, ?_, ?_⟩
  · have hr := renderP1_mem (phase1Scan doc 0) doc 0 p m h
    simpa [attrRewrite, List.append_assoc] using hr
  · unfold V4.comment_ampscript_with_hoist
    dsimp only
    refine List.mem_append_left _ ?_
    exact List.mem_map.mpr ⟨(p, m), h, rfl⟩

/-- C5, witness at the attribute-on-its-own-line document. -/
theorem C5_witness :
    (1, (⟨("\nsrc=".data), '\x22', printTok ("x".data)⟩ : AttrMatch)) ∈
      phase1Scan ("a\nsrc=\x22%%=v(@x)=%%\x22".data) 0 ∧
    ((("a\nsrc=\x22%%=v(@x)=%%\x22".data).drop 1).take
      (attrMatchLen ⟨("\nsrc=".data), '\x22', printTok ("x".data)⟩) =
      ("\nsrc=".data) ++ '\x22' :: (printTok ("x".data) ++ ['\x22'])) :=
  ⟨by decide,
    (C5_attribute_neutralization ("a\nsrc=\x22%%=v(@x)=%%\x22".data) 1
      ⟨("\nsrc=".data), '\x22', printTok ("x".data)⟩ (by decide)).1⟩

/-- C6: hoist preservation.  For every residual fragment of the Safe
    Commenting pass that takes the block/server-script branch (it does not
    start with the print prefix and does start, case-insensitively, with a
    block opener or a script tag), both generations emit the binding
    declarations found in the fragment, concatenated in their original
    order, ahead of and outside the HTML comment that holds the remainder,
    so every binding occurs in the final document; and when the remainder
    is blank once the bindings are removed, no comment and no
    CommentedFragment record is produced for that fragment.  The v3
    emission treats every fragment kind this way. -/
theorem C6_hoist_preservation :
    ∀ (doc : Str) (p : Nat) (f : Str),
      startsWithS ("%%=".data) f = false →
      (startsWithS ("%%[".data) (lowerS f) ||
        startsWithS ("<script".data) (lowerS f)) = true →
      (((p, f) ∈ residualScan (renderP1 doc 0 (phase1Scan doc 0)) 0 →
        (∀ b ∈ letScan f, occursIn b (V4.comment_ampscript_with_hoist doc).1) ∧
        V4.p2chunk f = concatAll (letScan f) ++
          (if !(strip (removeLets f)).isEmpty then
            ("<!-- ".data) ++ removeLets f ++ (" -->".data)
          else []) ∧
        ((strip (removeLets f)).isEmpty = true →
          V4.p2chunk f = concatAll (letScan f) ∧ V4.p2record f = none)) ∧
       ((p, f) ∈ residualScan doc 0 →
        (∀ b ∈ letScan f, occursIn b (V3.comment_ampscript_with_hoist doc).1) ∧
        V3.p2chunk f = concatAll (letScan f) ++
          (if !(strip (removeLets f)).isEmpty then
            ("<!-- ".data) ++ removeLets f ++ (" -->".data)
          else []) ∧
        ((strip (removeLets f)).isEmpty = true →
          V3.p2chunk f = concatAll (letScan f) ∧ V3.p2record f = none))) := by
  intro doc p f h1 h2
  have hch4 : V4.p2chunk f = concatAll (letScan f) ++
      (if !(strip (removeLets f)).isEmpty then
        ("<!-- ".data) ++ removeLets f ++ (" -->".data)
      else []) := by
    unfold V4.p2chunk
    rw [h1, h2]
    simp
  have hch3 : V3.p2chunk f = concatAll (letScan f) ++
      (if !(strip (removeLets f)).isEmpty then
        ("<!-- ".data) ++ removeLets f ++ (" -->".data)
      else []) := rfl
  constructor
  · intro hmem
    refine ⟨?_, hch4, ?_⟩
    · intro b hb
      have hout : occursIn (V4.p2chunk f) (V4.comment_ampscript_with_hoist doc).1 := by
        unfold V4.comment_ampscript_with_hoist
        dsimp only
        exact renderP2_mem _ _ _ _ _ _ hmem
      have hin : occursIn (concatAll (letScan f)) (V4.p2chunk f) := by
        rw [hch4]
        exact occursIn_appR _ ⟨[], [], by simp⟩
      exact occursIn_trans (occursIn_concatAll hb) (occursIn_trans hin hout)
    · intro hemp
      constructor
      · rw [hch4]
        simp [hemp]
      · simp [V4.p2record, h1, h2, hemp]
  · intro hmem
    refine ⟨?_, hch3, ?_⟩
    · intro b hb
      have hout : occursIn (V3.p2chunk f) (V3.comment_ampscript_with_hoist doc).1 := by
        unfold V3.comment_ampscript_with_hoist
        dsimp only
        exact renderP2_mem _ _ _ _ _ _ hmem
      have hin : occursIn (concatAll (letScan f)) (V3.p2chunk f) := by
        rw [hch3]
        exact occursIn_appR _ ⟨[], [], by simp⟩
      exact occursIn_trans (occursIn_concatAll hb) (occursIn_trans hin hout)
    · intro hemp
      constructor
      · rw [hch3]
        simp [hemp]
      · simp [V3.p2record, hemp]

/-- C6, witness at a block fragment holding one binding declaration. -/
theorem C6_witness :
    startsWithS ("%%=".data) ("%%[X \x7b% let V = (profile.v) %\x7d Y]%%".data) = false ∧
    (1, ("%%[X \x7b% let V = (profile.v) %\x7d Y]%%".data)) ∈
      residualScan (renderP1 ("a%%[X \x7b% let V = (profile.v) %\x7d Y]%%b".data) 0
        (phase1Scan ("a%%[X \x7b% let V = (profile.v) %\x7d Y]%%b".data) 0)) 0 ∧
    (∀ b ∈ letScan ("%%[X \x7b% let V = (profile.v) %\x7d Y]%%".data),
      occursIn b (V4.comment_ampscript_with_hoist
        ("a%%[X \x7b% let V = (profile.v) %\x7d Y]%%b".data)).1) :=
  ⟨by decide, by decide,
    (((C6_hoist_preservation ("a%%[X \x7b% let V = (profile.v) %\x7d Y]%%b".data) 1
        ("%%[X \x7b% let V = (profile.v) %\x7d Y]%%".data)
        (by decide) (by decide)).1) (by decide)).1⟩
